import Mathlib

/-!
# Verification of the pyflocks analysis and plotting scripts

A shallow embedding of `src/analysis/plot_aggregate.py` and `src/util/plot.py`.

Python floats are modelled as rationals (`ℚ`).  Python dicts are modelled as
association lists in insertion order (Python dicts preserve insertion order,
and new keys are appended at the end).  Calls into `matplotlib` are modelled
as an event trace (`Ev`): each drawing primitive is recorded together with the
arguments the script passes to it.  A raised exception is modelled as an
`Option String` error component carried next to the trace (a raise prevents
all later events, so an erroring function returns only the events that were
emitted before the raise).

Functions of `util.geometry`, `analysis.stats` and
`analysis.emergence_calculator` are imported by the scripts but are not part
of this repository snapshot; where a claim depends on them they are taken as
explicit function parameters (see the doc comments of `SFn`,
`plot_vector_ang` and `plot_state_particles_trajectories`).
-/

/-- Association-list lookup, first matching key wins: Python `d[k]` /
`k in d.keys()` on a dict represented in insertion order. -/
def alook {κ α : Type} [DecidableEq κ] (k : κ) : List (κ × α) → Option α
  | [] => none
  | (k2, v) :: rest => if k2 = k then some v else alook k rest

/-- Python `<` on strings: lexicographic comparison of code points. -/
def lexLtCh : List Char → List Char → Bool
  | [], [] => false
  | [], _ :: _ => true
  | _ :: _, [] => false
  | a :: as, b :: bs =>
    if a.toNat < b.toNat then true
    else if b.toNat < a.toNat then false
    else lexLtCh as bs

/-- One step of a stable insertion sort on strings. -/
def insertStr (x : String) : List String → List String
  | [] => [x]
  | y :: ys => if lexLtCh y.toList x.toList then y :: insertStr x ys else x :: y :: ys

/-- Python `sorted` on a list of strings.  A stable insertion sort: any two
stable sorts agree as functions, so this computes exactly what `sorted`
computes. -/
def sortStr : List String → List String
  | [] => []
  | x :: xs => insertStr x (sortStr xs)

/-- Python `s.split('-')` on the character list of a string. -/
def splitDash : List Char → List (List Char)
  | [] => [[]]
  | c :: rest =>
    if c = '-' then [] :: splitDash rest
    else
      match splitDash rest with
      | [] => [[c]]
      | p :: ps => (c :: p) :: ps

/-- Python `int(s)` on a string of decimal digits (the scripts only apply it
to the numeric suffix of a repeat directory name). -/
def digitsToNat (cs : List Char) : ℕ :=
  cs.foldl (fun acc c => acc * 10 + (c.toNat - 48)) 0

/-- Python `needle in hay` on strings: substring containment. -/
def strContains (needle hay : String) : Bool :=
  (List.range (hay.toList.length + 1)).any
    (fun i => needle.toList.isPrefixOf (hay.toList.drop i))

/-- Python `'-' in s`. -/
def hasDash (s : String) : Bool := s.toList.contains '-'

/-- `np.mean` of a one-dimensional array.  (NumPy warns and yields NaN on an
empty array; the scripts never take the mean of an empty series, and `ℚ`
yields `0` there.) -/
def pyMean (xs : List ℚ) : ℚ := xs.sum / (xs.length : ℚ)

/-- Python `int(q)` for a float: truncation toward zero. -/
def pyTrunc (q : ℚ) : ℤ := if q < 0 then -((-q).floor) else q.floor

/-! ## Nested statistics dictionaries

`aggregate_model_stats` builds a dict nested along the aggregation
parameters whose innermost dicts map statistic names to floats.  All levels
are Python dicts; since the nesting depth is fixed by `param_list`, the value
is represented as a tree with parameter-keyed nodes and a statistics leaf. -/

/-- The innermost dict: statistic name to value, in insertion order. -/
abbrev Leaf := List (String × ℚ)

/-- A nested statistics dict: either the innermost statistics dict or a dict
keyed by parameter values. -/
inductive PDict where
  | lf (s : Leaf)
  | nd (m : List (ℚ × PDict))

/-- The empty dict created by `stats = dict()`, in the role it will play for
the given remaining nesting depth. -/
def emptyP : List ℚ → PDict
  | [] => .lf []
  | _ :: _ => .nd []

/-- The initial `stats = dict()` of `aggregate_model_stats`, in the role
fixed by the aggregation parameter list. -/
def emptyFor : List String → PDict
  | [] => .lf []
  | _ :: _ => .nd []

/-- Replace the value at a key of a parameter-keyed level (Python assignment
to an existing key keeps the dict order). -/
def replaceA (k : ℚ) (v : PDict) : List (ℚ × PDict) → List (ℚ × PDict)
  | [] => []
  | (k2, v2) :: rest => if k2 = k then (k2, v) :: rest else (k2, v2) :: replaceA k v rest

/-- The descend-and-mutate idiom of `aggregate_model_stats` (lines 96-124):
walk down the dict along `path`, creating missing dicts (`tmp[pval] =
dict()`, appended in insertion order), and apply `f` to the innermost dict
reached. -/
def PDict.updateAt (f : Leaf → Leaf) : PDict → List ℚ → PDict
  | .lf s, [] => .lf (f s)
  | .nd m, [] => .nd m
  | .lf s, _ :: _ => .lf s
  | .nd m, p :: ps =>
    match alook p m with
    | some d => .nd (replaceA p (PDict.updateAt f d ps) m)
    | none => .nd (m ++ [(p, PDict.updateAt f (emptyP ps) ps)])

/-- Look up the innermost dict at a full parameter path. -/
def PDict.lookupPath : PDict → List ℚ → Option Leaf
  | .lf s, [] => some s
  | .nd _, [] => none
  | .lf _, _ :: _ => none
  | .nd m, p :: ps =>
    match alook p m with
    | some d => PDict.lookupPath d ps
    | none => none

/-- Look up the nested sub-dict at a (possibly partial) parameter path. -/
def PDict.lookupNode : PDict → List ℚ → Option PDict
  | d, [] => some d
  | .lf _, _ :: _ => none
  | .nd m, p :: ps =>
    match alook p m with
    | some d => PDict.lookupNode d ps
    | none => none

/-- The dict has parameter-keyed nodes for exactly `n` levels and statistics
leaves below them. -/
def PDict.okDepthB : ℕ → PDict → Bool
  | 0, .lf _ => true
  | 0, .nd _ => false
  | _ + 1, .lf _ => false
  | n + 1, .nd m => m.all (fun kv => PDict.okDepthB n kv.2)

/-- `d.keys()` of a parameter-keyed level. -/
def PDict.keys : PDict → List ℚ
  | .lf _ => []
  | .nd m => m.map Prod.fst

/-- `d[k]` of a parameter-keyed level (total: the plotting routines only
index keys produced by `keys`). -/
def PDict.child (d : PDict) (k : ℚ) : PDict :=
  match d with
  | .lf _ => .nd []
  | .nd m => (alook k m).getD (.nd [])

/-- `d[s]` of an innermost statistics dict (total, see `child`). -/
def PDict.leafVal (d : PDict) (s : String) : ℚ :=
  match d with
  | .lf m => (alook s m).getD 0
  | .nd _ => 0

/-- `k in d.keys()` of a parameter-keyed level. -/
def PDict.hasKey (d : PDict) (k : ℚ) : Bool :=
  match d with
  | .lf _ => false
  | .nd m => (alook k m).isSome

/-! ## The aggregator (`src/analysis/plot_aggregate.py`) -/

/-- The state of one loaded experiment, as used by `aggregate_model_stats`:
the parameter hash `m.params`, the trajectories `m.traj['X']` and
`m.traj['A']`, and `m.bounds` (the boundary enum, modelled as an index). -/
structure FlockModel where
  params : List (String × ℚ)
  trajX : List (List (ℚ × ℚ))
  trajA : List (List ℚ)
  bounds : ℕ

/-- Modelled from the spec: `process_space`, `process_angles` (from
`analysis.stats`) and `emergence_psi` (from `analysis.emergence_calculator`)
are not part of this repository snapshot.  Their composite — the statistics
series `s[stat]` computed at lines 112-114 of `plot_aggregate.py` from the
trajectories with the first `skip` timepoints dropped, the model parameters
(which also determine `l = sqrt(rho*n)`) and the boundary condition — is an
explicit function parameter of this type. -/
abbrev SFn := List (List (ℚ × ℚ)) → List (List ℚ) → List (String × ℚ) → ℕ → String → List ℚ

/-- `np.mean(s[stat])` for one experiment: the time-average of the statistic
series computed from the trajectory with the first `skip` frames dropped. -/
def statVal (sFn : SFn) (skip : ℕ) (m : FlockModel) (stat : String) : ℚ :=
  pyMean (sFn (m.trajX.drop skip) (m.trajA.drop skip) m.params m.bounds stat)

/-- `models[name]` (total: only applied to keys of the dict). -/
def getModel (models : List (String × FlockModel)) (name : String) : FlockModel :=
  (alook name models).getD ⟨[], [], [], 0⟩

/-- Line 86: `sorted([m for m in models.keys() if '-' not in m])`. -/
def batchNames (models : List (String × FlockModel)) : List String :=
  sortStr ((models.map Prod.fst).filter (fun m => ! hasDash m))

/-- Line 90: `sorted([m for m in models.keys() if batch in m])`. -/
def expIn (models : List (String × FlockModel)) (batch : String) : List String :=
  sortStr ((models.map Prod.fst).filter (fun m => strContains batch m))

/-- Line 91: `int(m.split('-')[1]) if len(m.split('-')) > 1 else 0`. -/
def repIdx (m : String) : ℤ :=
  let parts := splitDash m.toList
  if parts.length > 1 then (digitsToNat (parts.getD 1 []) : ℤ) else 0

/-- Lines 91-92: `max([...]) + 1`.  The fold starts at `0`, which is sound
because the batch name itself is always in `exp_in_batch` and contributes
index `0`, so the fold computes the true maximum of the nonempty list. -/
def countOf (models : List (String × FlockModel)) (batch : String) : ℤ :=
  ((expIn models batch).map repIdx).foldl max 0 + 1

/-- Update the value at an existing key of the innermost dict. -/
def mapUpd (s : String) (g : ℚ → ℚ) : Leaf → Leaf
  | [] => []
  | (k, v) :: rest => if k = s then (k, g v) :: rest else (k, v) :: mapUpd s g rest

/-- Lines 116-120: `tmp[stat] += v` if present else `tmp[stat] = v`. -/
def addOrSet (l : Leaf) (s : String) (x : ℚ) : Leaf :=
  if (alook s l).isSome then mapUpd s (fun v => v + x) l else l ++ [(s, x)]

/-- The inner statistics loop of lines 116-120 for one experiment. -/
def addExp (stats_names : List String) (vals : String → ℚ) (l : Leaf) : Leaf :=
  stats_names.foldl (fun acc s => addOrSet acc s (vals s)) l

/-- Lines 123-124: `tmp[stat] /= float(count)` for each requested statistic. -/
def divAll (stats_names : List String) (c : ℚ) (l : Leaf) : Leaf :=
  stats_names.foldl (fun acc s => mapUpd s (fun v => v / c) acc) l

/-- The total effect of one batch iteration (lines 106-124) on the innermost
dict reached by the parameter path: accumulate each experiment's time-mean
statistics and divide by `count`. -/
def batchLeafUpd (models : List (String × FlockModel)) (sFn : SFn)
    (stats_names : List String) (skip : ℕ) (batch : String) (l : Leaf) : Leaf :=
  divAll stats_names ((countOf models batch : ℤ) : ℚ)
    ((expIn models batch).foldl
      (fun acc e => addExp stats_names (statVal sFn skip (getModel models e)) acc) l)

/-- Lines 98-99: the parameter values of the batch along `param_list`
(`models[batch].params[p]`; total lookup — the surrounding check guarantees
each `p` occurs in the model parameters). -/
def pathOf (models : List (String × FlockModel)) (param_list : List String)
    (batch : String) : List ℚ :=
  param_list.map (fun p => (alook p (getModel models batch).params).getD 0)

/-- One iteration of the batch loop of `aggregate_model_stats`. -/
def processBatch (models : List (String × FlockModel)) (sFn : SFn)
    (param_list stats_names : List String) (skip : ℕ)
    (d : PDict) (batch : String) : PDict :=
  PDict.updateAt (batchLeafUpd models sFn stats_names skip batch) d
    (pathOf models param_list batch)

/-- Lines 38-126, `aggregate_model_stats`: check that every aggregation
parameter occurs among the model parameters (raising `ValueError`
otherwise), then run the batch loop over the sorted batch names.  The
`print` call has no effect on the result and is not modelled. -/
def aggregate_model_stats (models : List (String × FlockModel))
    (param_list stats_names : List String) (sFn : SFn) (skip : ℕ) :
    Except String PDict :=
  match param_list.find? (fun p =>
      ! ((models.map (fun q => q.2.params.map Prod.fst)).flatten).contains p) with
  | some p =>
    .error ("ValueError: Parameter " ++ p ++ " passed to aggregate_stats not in model params")
  | none =>
    .ok ((batchNames models).foldl
      (processBatch models sFn param_list stats_names skip) (emptyFor param_list))

/-- Look up the innermost dict of a successful aggregation result at a
parameter path. -/
def aggLookup (r : Except String PDict) (path : List ℚ) : Option Leaf :=
  match r with
  | .ok d => d.lookupPath path
  | .error _ => none

/-! ## The plotting surface (`src/util/plot.py`)

Calls into `matplotlib` are recorded as events.  Cosmetic attributes that no
claim depends on (font sizes, the random curve colour `np.random.rand(3,)`
and the cycling marker symbol) are not recorded. -/

/-- One call into the shared plotting surface. -/
inductive Ev where
  | axis (x0 x1 y0 y1 : ℚ)
  | styleUse (s : String)
  | aspect (s : String)
  | xticks (n : ℤ)
  | yticks (n : ℤ)
  | scatter (x y : ℚ) (color marker : String) (alpha : Option ℚ)
  | quiverAng (x y a v : ℚ) (col : String)
  | lineMasked (xs ys : List (Option ℚ)) (col : String) (alpha : ℚ)
  | sumvecLine (A : List ℚ) (V : List ℚ) (l : ℚ)
  | curve (xs ys : List ℚ) (label : Option String) (linestyle : String)
  | xlabel (s : String)
  | ylabel (s : String)
  | title (s : String)
  | suptitle (s : String)
  | legend
  | showFig
  | savefig (file : String)
  | closeFig
  | cla
  | figsize (w h : ℚ)
deriving DecidableEq

/-- Lines 9-20, `prepare_state_plot`: axis box, style, aspect ratio, and
integer ticks `range(int(l)+1)` on both axes for small worlds (the tick
events record `int(l)+1`, the number of ticks). -/
def prepare_state_plot (l : ℚ) : List Ev :=
  [Ev.axis 0 l 0 l, Ev.styleUse ("dark_background"), Ev.aspect ("equal")] ++
  (if l < 20 then [Ev.xticks (pyTrunc l + 1), Ev.yticks (pyTrunc l + 1)] else [])

/-- Lines 23-34, `plot_particle`: a white dot. -/
def plot_particle (X : ℚ × ℚ) : List Ev :=
  [Ev.scatter X.1 X.2 ("w") (".") none]

/-- Lines 57-78, `plot_vector_ang`.  `ang_to_vec` comes from the star-import
of `util.geometry`, which is not part of this repository snapshot; the
quiver call is recorded by the arguments the script passes on — position,
angle, absolute velocity and colour. -/
def plot_vector_ang (X : ℚ × ℚ) (a v : ℚ) (col : String) : List Ev :=
  [Ev.quiverAng X.1 X.2 a v col]

/-- Lines 107-114: the fade-mode brightness computed from the oscillator
phase.  `np.pi` is the parameter `piq`; every property proved about it holds
for an arbitrary positive value, in particular for the float constant. -/
def fadeAlpha (piq p : ℚ) : ℚ :=
  (if p > piq then 2 * piq - p else if p < 0 then |p| else p) / piq

/-- Lines 81-117, `plot_oscillator`: in blink mode a light only on the first
frames of a rotation, in fade mode a light with the phase-derived
brightness; always a dot marker on top. -/
def plot_oscillator (piq : ℚ) (X : ℚ × ℚ) (p f dt : ℚ) (blink : Bool)
    (col1 col2 : String) : List Ev :=
  (if blink then
    (if 0 ≤ p ∧ p ≤ 2 * piq * f * dt then [Ev.scatter X.1 X.2 ("y") ("o") none] else [])
  else [Ev.scatter X.1 X.2 col1 ("o") (some (fadeAlpha piq p))]) ++
  [Ev.scatter X.1 X.2 col2 (".") none]

/-- Lines 139-142: the window `Xt[t-dt-1:t+1]` (resp. `Xt[0:t+1]`) of the
trajectory that is plotted. -/
def trajWindow (t : ℕ) (Xt : List (ℚ × ℚ)) (dt : ℕ) : List (ℚ × ℚ) :=
  if t > dt then (Xt.drop (t - dt - 1)).take (dt + 2) else Xt.take (t + 1)

/-- Lines 146-151: `np.hstack([np.abs(np.diff(c)) >= l-1, [False]])` — entry
`i` is masked when the step from position `i` to position `i+1` jumps by at
least `l-1` in this coordinate; the final entry is never masked. -/
def jumpMask (xs : List ℚ) (l : ℚ) : List Bool :=
  (xs.zip xs.tail).map (fun ab => decide (|ab.2 - ab.1| ≥ l - 1)) ++ [false]

/-- `np.ma.MaskedArray(data, mask)`: masked entries become invalid. -/
def applyMask (xs : List ℚ) (ms : List Bool) : List (Option ℚ) :=
  List.zipWith (fun x m => if m then none else some x) xs ms

/-- Lines 120-161, `plot_trajectory`: for `t > 0`, one `plt.plot` of the two
masked coordinate arrays of the plotted window; for `t = 0` nothing is
drawn. -/
def plot_trajectory (t : ℕ) (Xt : List (ℚ × ℚ)) (l : ℚ) (col : String) (dt : ℕ) : List Ev :=
  let w := trajWindow t Xt dt
  if t > 0 then
    [Ev.lineMasked (applyMask (w.map Prod.fst) (jumpMask (w.map Prod.fst) l))
                   (applyMask (w.map Prod.snd) (jumpMask (w.map Prod.snd) l))
                   col (if col = "grey" then (3 : ℚ) / 10 else 1)]
  else []

/-- matplotlib draws the segment between consecutive points of a masked line
exactly when both endpoints are valid in both coordinate arrays. -/
def segVisible (mxs mys : List (Option ℚ)) (i : ℕ) : Bool :=
  (mxs.getD i none).isSome && (mxs.getD (i + 1) none).isSome &&
  (mys.getD i none).isSome && (mys.getD (i + 1) none).isSome

/-- Lines 165-223, `plot_state`.  The body is a copy of
`plot_state_vectors`, but the signature declares `v: float` instead of the
velocity array `V` and has no `sumvec` flag, so the body's references to `V`
(first loop iteration) and `sumvec` (when there are no particles) are
unbound names: after `prepare_state_plot` every call raises `NameError`
(assuming, per the docstrings, that `util.geometry` defines no module-level
`V` or `sumvec` to be picked up through the star import). -/
def plot_state (t : ℤ) (X : List (ℚ × ℚ)) (A : List ℚ) (v : ℚ) (l : ℚ)
    (ti sub path : String) (save showF : Bool) : List Ev × Option String :=
  (prepare_state_plot l,
   some (if X.length > 0 then ("NameError: name V is not defined")
         else ("NameError: name sumvec is not defined")))

/-- Lines 226-282, `plot_state_vectors`: velocity arrows for all particles,
the optional normalised sum vector (`sum_vec_ang` is from the missing
`util.geometry`; the drawn line is recorded by its inputs), labels, then
show/save and a final `plt.cla()`. -/
def plot_state_vectors (t : ℤ) (X : List (ℚ × ℚ)) (A V : List ℚ) (l : ℚ)
    (ti sub path : String) (sumvec save showF : Bool) : List Ev × Option String :=
  (prepare_state_plot l ++
   (List.range X.length).flatMap
     (fun i => plot_vector_ang (X.getD i (0, 0)) (A.getD i 0) (V.getD i 0) ("w")) ++
   (if sumvec then [Ev.sumvecLine A V l] else []) ++
   [Ev.xlabel (toString t), Ev.title sub, Ev.suptitle ti] ++
   (if showF then [Ev.showFig] else []) ++
   (if save then [Ev.savefig (path ++ "/" ++ toString t ++ ".jpg"), Ev.closeFig] else []) ++
   [Ev.cla], none)

/-- Lines 285-346, `plot_state_particles_trajectories`: per-particle
trajectories, dots at the current positions, the optional centre-of-mass
trajectory, labels, show/save, and a final `plt.cla()`.  `centre_of_mass`
is from the missing `util.geometry` and is the parameter `cmFn`. -/
def plot_state_particles_trajectories (t : ℕ) (Xt : List (List (ℚ × ℚ))) (l : ℚ)
    (topology : ℕ) (cmFn : List (ℚ × ℚ) → ℚ → ℕ → ℚ × ℚ)
    (ti sub path : String) (cmass save showF : Bool) : List Ev × Option String :=
  (prepare_state_plot l ++
   (List.range (Xt.headD []).length).flatMap
     (fun i => plot_trajectory t (Xt.map (fun fr => fr.getD i (0, 0))) l ("grey") 20) ++
   (List.range (Xt.headD []).length).flatMap
     (fun i => plot_particle ((Xt.getD t []).getD i (0, 0))) ++
   (if cmass then plot_trajectory t (Xt.map (fun fr => cmFn fr l topology)) l ("yellow") 20
    else []) ++
   [Ev.xlabel (toString (t : ℤ)), Ev.title sub, Ev.suptitle ti] ++
   (if showF then [Ev.showFig] else []) ++
   (if save then [Ev.savefig (path ++ "/" ++ toString (t : ℤ) ++ ".jpg"), Ev.closeFig] else []) ++
   [Ev.cla], none)

/-- Lines 349-403, `plot_state_oscillators`: every oscillator drawn in fade
mode, labels, show/save, and a final `plt.cla()`. -/
def plot_state_oscillators (piq : ℚ) (t : ℤ) (X : List (ℚ × ℚ)) (F P : List ℚ)
    (dt : ℚ) (l : ℚ) (ti sub path : String) (save showF : Bool) :
    List Ev × Option String :=
  (prepare_state_plot l ++
   (List.range X.length).flatMap
     (fun i => plot_oscillator piq (X.getD i (0, 0)) (P.getD i 0) (F.getD i 0) dt false
                 ("y") ("g")) ++
   [Ev.xlabel (toString t), Ev.title sub, Ev.suptitle ti] ++
   (if showF then [Ev.showFig] else []) ++
   (if save then [Ev.savefig (path ++ "/" ++ toString t ++ ".jpg"), Ev.closeFig] else []) ++
   [Ev.cla], none)

/-- Lines 406-453, `plot_trajectories`: an initial `plt.cla()`, the full
trajectory of every particle and of the centre of mass (window `dt = T`),
titles, show/save, and a final `plt.cla()`. -/
def plot_trajectories (X : List (List (ℚ × ℚ))) (M : List (ℚ × ℚ)) (l : ℚ)
    (name ti sup path : String) (save showF : Bool) : List Ev × Option String :=
  ([Ev.cla] ++
   (List.range (X.headD []).length).flatMap
     (fun i => plot_trajectory X.length (X.map (fun fr => fr.getD i (0, 0))) l ("grey")
                 X.length) ++
   plot_trajectory X.length M l ("r") X.length ++
   [Ev.title ti, Ev.suptitle sup] ++
   (if showF then [Ev.showFig] else []) ++
   (if save then [Ev.savefig (path ++ "/trajectories_" ++ name ++ ".png"), Ev.closeFig]
    else []) ++
   [Ev.cla], none)

/-! ## The aggregate plotting routines (`src/analysis/plot_aggregate.py`) -/

/-- Lines 23-28, the `titles` dict (in insertion order). -/
def titlesL : List (String × String) :=
  [("avg_abs_vel", "Absolute average normalised velocity"),
   ("std_angle", "Standard deviation of particle direction"),
   ("std_dist_cmass", "Standard deviation of distance from centre of mass"),
   ("psi_cmass", "Emergence $\\psi$ for centre of mass")]

/-- Lines 17-22, the `labels` dict (in insertion order). -/
def labelsL : List (String × String) :=
  [("avg_abs_vel", "$\\frac\x7b1\x7d\x7bN v\x7d  \\mathbf\x7bv\x7d_\x7bX_i\x7d$"),
   ("std_angle", "$\\sigma_\x7b\\theta\x7d$"),
   ("std_dist_cmass", "$\\sigma_\x7bX_M\x7d$"),
   ("psi_cmass", "$\\psi_\x7bx_M\x7d$")]

/-- `titles.keys()`, the statistics the aggregator is asked for. -/
def titlesKeys : List String := titlesL.map Prod.fst

/-- The float-to-string conversion of Python string interpolation.  `toString`
on `ℚ` is injective on the values the scripts format; no claim depends on
the exact digits. -/
def pyStr (q : ℚ) : String := toString q

/-- Lines 131-149, `plot_2param`: raise `ValueError` unless exactly two
aggregation parameters were given; otherwise, for every statistic and every
first-parameter value, one dashed curve of the aggregated statistic against
the second-parameter values, labels, one saved figure, and `plt.cla()`.
(The cycling marker and the random colour are cosmetic and not recorded.) -/
def plot_2param (name : String) (stats : PDict) (param : List String) (path : String) :
    List Ev × Option String :=
  if param.length ≠ 2 then
    ([], some ("ValueError: Can only plot aggregate plot with 2 params, but " ++
               toString param.length ++ " given"))
  else
    (titlesKeys.flatMap (fun val =>
      stats.keys.flatMap (fun p0 =>
        [Ev.curve ((stats.child p0).keys)
           (((stats.child p0).keys).map (fun p1 => ((stats.child p0).child p1).leafVal val))
           none ("--"),
         Ev.title ((alook val titlesL).getD ("") ++ " vs $\\" ++ param.getD 1 ("") ++ "$"),
         Ev.suptitle (name ++ " $\\" ++ param.getD 0 ("") ++ "$ = " ++ pyStr p0),
         Ev.xlabel ("$\\eta$"),
         Ev.ylabel ((alook val labelsL).getD ("")),
         Ev.savefig (path ++ "/" ++ name ++ "_" ++ param.getD 0 ("") ++ pyStr p0 ++ "_" ++
                     param.getD 1 ("") ++ "_vs_" ++ val ++ ".png"),
         Ev.cla])), none)

/-- First-occurrence deduplication: Python `list(set(...))` up to order.
(CPython's set iteration order is unspecified; no claim depends on the order
of the third-parameter groups, only on their membership.) -/
def dedupQ : List ℚ → List ℚ
  | [] => []
  | x :: xs => x :: (dedupQ xs).filter (fun y => y ≠ x)

/-- Line 163 of `plot_3param`: the distinct third-parameter values occurring
under a first-parameter value. -/
def groupsOf (stats : PDict) (p0 : ℚ) : List ℚ :=
  dedupQ (((stats.child p0).keys).flatMap (fun p1 => ((stats.child p0).child p1).keys))

/-- Lines 160-177 of `plot_3param`, one `(statistic, first parameter value)`
iteration: one dashed labelled curve per distinct third-parameter value
(`yval` keeps only the second-parameter values under which the
third-parameter value occurs, while `xval` is the full key list), then
labels, legend, one saved figure, and `plt.cla()`. -/
def p3block (name : String) (stats : PDict) (param : List String) (path : String)
    (val : String) (p0 : ℚ) : List Ev :=
  (groupsOf stats p0).map (fun p2 =>
    Ev.curve ((stats.child p0).keys)
      (((stats.child p0).keys).filterMap (fun p1 =>
        if ((stats.child p0).child p1).hasKey p2 then
          some ((((stats.child p0).child p1).child p2).leafVal val)
        else none))
      (some (param.getD 2 ("") ++ " = " ++ pyStr p2)) ("--")) ++
  [Ev.title ((alook val titlesL).getD ("") ++ " vs $\\" ++ param.getD 1 ("") ++ "$"),
   Ev.suptitle (name ++ " $\\" ++ param.getD 0 ("") ++ "$ = " ++ pyStr p0),
   Ev.xlabel ("$\\eta$"),
   Ev.ylabel ((alook val labelsL).getD ("")),
   Ev.legend,
   Ev.savefig (path ++ "/" ++ name ++ "_" ++ param.getD 0 ("") ++ pyStr p0 ++ "_" ++
               param.getD 1 ("") ++ "_" ++ param.getD 2 ("") ++ "_vs_" ++ val ++ ".png"),
   Ev.cla]

/-- Lines 152-177, `plot_3param`: raise `ValueError` unless exactly three
aggregation parameters were given; otherwise run `p3block` for every
statistic and every first-parameter value. -/
def plot_3param (name : String) (stats : PDict) (param : List String) (path : String) :
    List Ev × Option String :=
  if param.length ≠ 3 then
    ([], some ("ValueError: Can only plot aggregate plot with 3 params, but " ++
               toString param.length ++ " given"))
  else
    (titlesKeys.flatMap (fun val =>
      stats.keys.flatMap (fun p0 => p3block name stats param path val p0)), none)

/-- Lines 180-211, `plot_results`: raise `ValueError` on more than three
aggregation parameters before anything else happens; exit silently when no
models were found; aggregate the four statistics of `titles` with the
default `skip = 10` (an error of the aggregator propagates); set the figure
size; dispatch on the number of aggregation parameters.  `find_models` reads
the filesystem, so the loaded models dict is a parameter here. -/
def plot_results (models : List (String × FlockModel)) (aggregate : List String)
    (modelName out : String) (sFn : SFn) : List Ev × Option String :=
  if aggregate.length > 3 then
    ([], some ("ValueError: Cannot aggregate by more than 3 parameters"))
  else if models.length = 0 then ([], none)
  else
    match aggregate_model_stats models aggregate titlesKeys sFn 10 with
    | .error e => ([], some e)
    | .ok stats =>
      if aggregate.length = 2 then
        let r := plot_2param modelName stats aggregate out
        (Ev.figsize 10 7 :: r.1, r.2)
      else if aggregate.length = 3 then
        let r := plot_3param modelName stats aggregate out
        (Ev.figsize 10 7 :: r.1, r.2)
      else ([Ev.figsize 10 7], none)

/-- Drop the first `k` timepoints of both trajectories of a model (used to
state that the aggregator depends on a trajectory only through its entries
after the first `skip`). -/
def dropTraj (k : ℕ) (m : FlockModel) : FlockModel :=
  ⟨m.params, m.trajX.drop k, m.trajA.drop k, m.bounds⟩

/-- Is the event a `plt.plot` curve of the aggregate plots? -/
def isCurveEv : Ev → Bool
  | .curve _ _ _ _ => true
  | _ => false

/-- Is the event a `plt.savefig`? -/
def isSaveEv : Ev → Bool
  | .savefig _ => true
  | _ => false

/-- A concrete experiment used in counterexamples and witnesses. -/
def cexModel : FlockModel := ⟨[("r", 1)], [[(0, 0)]], [[0]], 0⟩

/-- A statistics function used in counterexamples and witnesses: every
statistic series is the constant `[6]`, so every time-average is `6`. -/
def cexSFn : SFn := fun _ _ _ _ _ => [6]

/-- A batch with a gap in its repeat numbering: the unsuffixed run `b`
(repeat index 0) and the repeat `b-2` (repeat index 2); the repeat `b-1` is
missing. -/
def cexModels : List (String × FlockModel) := [("b", cexModel), ("b-2", cexModel)]

/-- A single-experiment batch used in witnesses. -/
def wModel1 : List (String × FlockModel) := [("b", cexModel)]

/-- A depth-3 aggregate dict with an incomplete grid: the third-parameter
value `2` occurs under the second-parameter value `1` but not under `2`. -/
def cexStats3 : PDict :=
  .nd [(1, .nd [(1, .nd [(1, .lf [("avg_abs_vel", 5)]), (2, .lf [("avg_abs_vel", 7)])]),
                (2, .nd [(1, .lf [("avg_abs_vel", 9)])])])]

/-- A depth-3 aggregate dict with a complete grid. -/
def cexStats3c : PDict :=
  .nd [(1, .nd [(1, .nd [(1, .lf [("avg_abs_vel", 5)]), (2, .lf [("avg_abs_vel", 7)])]),
                (2, .nd [(1, .lf [("avg_abs_vel", 9)]), (2, .lf [("avg_abs_vel", 11)])])])]

/-! ## General lemmas -/

theorem zipWith_getElem_some {α β γ : Type} (f : α → β → γ) :
    ∀ (xs : List α) (ms : List β) (i : ℕ) (x : α) (m : β),
      xs[i]? = some x → ms[i]? = some m → (List.zipWith f xs ms)[i]? = some (f x m) := by
  intro xs
  induction xs with
  | nil => intro ms i x m hx; simp at hx
  | cons c rest ih =>
    intro ms i x m hx hm
    cases ms with
    | nil => simp at hm
    | cons d ms2 =>
      cases i with
      | zero =>
        simp only [List.getElem?_cons_zero, Option.some.injEq] at hx hm
        simp [List.zipWith_cons_cons, hx, hm]
      | succ j =>
        simp only [List.getElem?_cons_succ] at hx hm
        simpa using ih ms2 j x m hx hm

theorem zip_tail_getElem {α : Type} :
    ∀ (xs : List α) (i : ℕ) (x y : α),
      xs[i]? = some x → xs[i + 1]? = some y → (xs.zip xs.tail)[i]? = some (x, y) := by
  intro xs
  induction xs with
  | nil => intro i x y hx; simp at hx
  | cons c rest ih =>
    intro i x y hx hy
    cases rest with
    | nil =>
      cases i with
      | zero => simp at hy
      | succ j => simp at hy
    | cons d rest2 =>
      cases i with
      | zero =>
        simp only [List.getElem?_cons_zero, Option.some.injEq] at hx
        simp only [List.getElem?_cons_succ, List.getElem?_cons_zero,
          Option.some.injEq] at hy
        simp [hx, hy]
      | succ j =>
        rw [List.getElem?_cons_succ] at hx
        rw [List.getElem?_cons_succ] at hy
        simpa using ih j x y hx hy

/-! ## C3: validation of the parameter count -/

/-- C3: `plot_2param` raises `ValueError` iff its parameter list does not
have exactly 2 entries, `plot_3param` iff it does not have exactly 3, and
`plot_results` raises whenever more than 3 aggregation parameters are given;
in each case the raise happens first, with an empty event trace (and, for
`plot_results`, the same result for every models input, i.e. before any
aggregation). -/
theorem bad_param_count_raises_early :
    (∀ (name : String) (stats : PDict) (param : List String) (path : String),
       ((plot_2param name stats param path).2.isSome ↔ param.length ≠ 2) ∧
       (param.length ≠ 2 → (plot_2param name stats param path).1 = [])) ∧
    (∀ (name : String) (stats : PDict) (param : List String) (path : String),
       ((plot_3param name stats param path).2.isSome ↔ param.length ≠ 3) ∧
       (param.length ≠ 3 → (plot_3param name stats param path).1 = [])) ∧
    (∀ (models : List (String × FlockModel)) (ag : List String)
       (modelName out : String) (sFn : SFn), ag.length > 3 →
       plot_results models ag modelName out sFn =
         ([], some ("ValueError: Cannot aggregate by more than 3 parameters"))) := by
  refine ⟨?_, ?_, ?_⟩
  · intro name stats param path
    rcases eq_or_ne param.length 2 with h | h <;> simp [plot_2param, h]
  · intro name stats param path
    rcases eq_or_ne param.length 3 with h | h <;> simp [plot_3param, h]
  · intro models ag modelName out sFn h
    unfold plot_results
    rw [if_pos h]

theorem bad_param_count_raises_early_witness :
    (plot_2param ("m") (PDict.nd []) (["a"]) ("p")).1 = [] ∧
    plot_results [] (["a", "b", "c", "d"]) ("m") ("o") (fun _ _ _ _ _ => []) =
      ([], some ("ValueError: Cannot aggregate by more than 3 parameters")) :=
  ⟨(bad_param_count_raises_early.1 ("m") (PDict.nd []) (["a"]) ("p")).2 (by decide),
   bad_param_count_raises_early.2.2 [] (["a", "b", "c", "d"]) ("m") ("o")
     (fun _ _ _ _ _ => []) (by decide)⟩

/-! ## C2: `plot_state` never completes -/

/-- C2 (code bug in `plot_state`): contrary to the claim that every plotting
function completes its drawing and then saves or displays the frame without
raising, `plot_state` raises `NameError` on every input — its body uses the
velocity array `V` and the flag `sumvec`, neither of which is bound by its
signature. -/
theorem plot_state_never_completes (t : ℤ) (X : List (ℚ × ℚ)) (A : List ℚ) (v l : ℚ)
    (ti sub path : String) (save showF : Bool) :
    (plot_state t X A v l ti sub path save showF).2.isSome := rfl

/-! ## C7: `plot_state` versus `plot_state_vectors` -/

/-- C7 (code bug): `plot_state` and `plot_state_vectors` have textually
identical bodies and docstrings, but on a common input (one particle, sum
vector disabled) `plot_state` stops with `NameError` right after preparing
the surface while `plot_state_vectors` performs the full documented sequence
of drawing, labelling and saving operations. -/
theorem plot_state_vs_vectors_at_input :
    plot_state 0 [(1/2, 1/2)] [0] (1/10) 1 ("T") ("S") ("out") true false =
      (prepare_state_plot 1, some ("NameError: name V is not defined")) ∧
    plot_state_vectors 0 [(1/2, 1/2)] [0] [1/10] 1 ("T") ("S") ("out") false true false =
      (prepare_state_plot 1 ++
       [Ev.quiverAng (1/2) (1/2) 0 (1/10) ("w"), Ev.xlabel ("0"), Ev.title ("S"),
        Ev.suptitle ("T"), Ev.savefig ("out/0.jpg"), Ev.closeFig, Ev.cla], none) :=
  ⟨rfl, rfl⟩

/-! ## C8: clearing the shared surface -/

/-- C8 counterexample: `plot_state` is on the claim's list of functions that
clear the shared plotting surface before returning, but a call to it leaves
the surface uncleared — it exits by `NameError` and no `cla` event occurs. -/
theorem plot_state_no_clear_cex :
    Ev.cla ∉ (plot_state 0 [(1, 1)] [0] 1 5 ("T") ("S") ("o") true false).1 ∧
    (plot_state 0 [(1, 1)] [0] 1 5 ("T") ("S") ("o") true false).2.isSome := by
  constructor
  · decide
  · rfl

theorem last_of_append_cla (l1 l2 : List Ev) (h : l2.getLast? = some Ev.cla) :
    (l1 ++ l2).getLast? = some Ev.cla := by
  rw [List.getLast?_append, h, Option.or_some]

/-- C8 (amended): of the five frame-producing functions, the four that can
complete — `plot_state_vectors`, `plot_state_particles_trajectories`,
`plot_state_oscillators` and `plot_trajectories` — always end their event
sequence by clearing the shared plotting surface (`plt.cla()`), so no
drawing of theirs remains at the start of the next call; `plot_state` raises
before reaching its clear (see `plot_state_no_clear_cex`). -/
theorem frame_functions_clear_last :
    (∀ t X A V l ti sub path sumvec save showF,
      (plot_state_vectors t X A V l ti sub path sumvec save showF).1.getLast? =
        some Ev.cla ∧
      (plot_state_vectors t X A V l ti sub path sumvec save showF).2 = none) ∧
    (∀ t Xt l topology cmFn ti sub path cmass save showF,
      (plot_state_particles_trajectories t Xt l topology cmFn ti sub path cmass save
        showF).1.getLast? = some Ev.cla ∧
      (plot_state_particles_trajectories t Xt l topology cmFn ti sub path cmass save
        showF).2 = none) ∧
    (∀ piq t X F P dt l ti sub path save showF,
      (plot_state_oscillators piq t X F P dt l ti sub path save showF).1.getLast? =
        some Ev.cla ∧
      (plot_state_oscillators piq t X F P dt l ti sub path save showF).2 = none) ∧
    (∀ X M l name ti sup path save showF,
      (plot_trajectories X M l name ti sup path save showF).1.getLast? = some Ev.cla ∧
      (plot_trajectories X M l name ti sup path save showF).2 = none) := by
  refine ⟨?_, ?_, ?_, ?_⟩ <;> intros <;>
    exact ⟨by repeat (first | rfl | apply last_of_append_cla), rfl⟩

/-! ## C10: validity of the fade-mode brightness -/

/-- C10: in fade mode, for every phase `p` with `-pi ≤ p ≤ 2*pi` the
brightness passed by `plot_oscillator` to the scatter call lies in `[0, 1]`,
equals `0` at `p = 0` and equals `1` at `p = pi` (proved for every positive
value `piq` of the modelled `np.pi`). -/
theorem fade_alpha_valid (piq p : ℚ) (hpi : 0 < piq) (h1 : -piq ≤ p) (h2 : p ≤ 2 * piq) :
    0 ≤ fadeAlpha piq p ∧ fadeAlpha piq p ≤ 1 ∧
    fadeAlpha piq 0 = 0 ∧ fadeAlpha piq piq = 1 ∧
    ∀ (X : ℚ × ℚ) (f dtq : ℚ) (c1 c2 : String),
      Ev.scatter X.1 X.2 c1 ("o") (some (fadeAlpha piq p)) ∈
        plot_oscillator piq X p f dtq false c1 c2 := by
  refine ⟨?_, ?_, ?_, ?_, ?_⟩
  · unfold fadeAlpha
    apply div_nonneg _ hpi.le
    split
    · linarith
    · split
      · exact abs_nonneg _
      · linarith
  · unfold fadeAlpha
    rw [div_le_one hpi]
    split
    · linarith
    · split
      · rw [abs_of_neg (by assumption)]; linarith
      · linarith
  · unfold fadeAlpha
    rw [if_neg (by exact not_lt.2 hpi.le), if_neg (by exact lt_irrefl 0), zero_div]
  · unfold fadeAlpha
    rw [if_neg (lt_irrefl piq), if_neg (not_lt.2 hpi.le), div_self (ne_of_gt hpi)]
  · intro X f dtq c1 c2
    simp [plot_oscillator]

theorem fade_alpha_valid_witness :
    0 ≤ fadeAlpha 3 3 ∧ fadeAlpha 3 3 ≤ 1 ∧
    fadeAlpha 3 0 = 0 ∧ fadeAlpha 3 3 = 1 ∧
    ∀ (X : ℚ × ℚ) (f dtq : ℚ) (c1 c2 : String),
      Ev.scatter X.1 X.2 c1 ("o") (some (fadeAlpha 3 3)) ∈
        plot_oscillator 3 X 3 f dtq false c1 c2 :=
  fade_alpha_valid 3 3 (by norm_num) (by norm_num) (by norm_num)

/-! ## C9: wrap-around jumps are masked out -/

/-- C9: `plot_trajectory` draws nothing at all for `t = 0`, and for every
pair of consecutive positions of the plotted window whose coordinate
difference along either axis is at least `l - 1`, the segment between them
is invisible in the masked line it draws (the earlier endpoint is masked in
that coordinate array). -/
theorem trajectory_masks_jumps (t : ℕ) (Xt : List (ℚ × ℚ)) (l : ℚ) (col : String)
    (dt : ℕ) (i : ℕ) (a b : ℚ × ℚ) :
    (t = 0 → plot_trajectory t Xt l col dt = []) ∧
    ((trajWindow t Xt dt)[i]? = some a →
     (trajWindow t Xt dt)[i + 1]? = some b →
     (l - 1 ≤ |b.1 - a.1| ∨ l - 1 ≤ |b.2 - a.2|) →
     ∀ mxs mys c al, Ev.lineMasked mxs mys c al ∈ plot_trajectory t Xt l col dt →
       segVisible mxs mys i = false) := by
  constructor
  · intro ht
    simp [plot_trajectory, ht]
  · intro ha hb hjump mxs mys c al hmem
    by_cases ht : t > 0
    case neg => simp [plot_trajectory, ht] at hmem
    case pos =>
      simp only [plot_trajectory, ht, if_true, List.mem_singleton] at hmem
      rw [Ev.lineMasked.injEq] at hmem
      obtain ⟨hmx, hmy, -, -⟩ := hmem
      rcases hjump with hj | hj
      · have hx1 : ((trajWindow t Xt dt).map Prod.fst)[i]? = some a.1 := by
          rw [List.getElem?_map, ha]; rfl
        have hx2 : ((trajWindow t Xt dt).map Prod.fst)[i + 1]? = some b.1 := by
          rw [List.getElem?_map, hb]; rfl
        have hz := zip_tail_getElem _ i a.1 b.1 hx1 hx2
        have hmask : (jumpMask ((trajWindow t Xt dt).map Prod.fst) l)[i]? = some true := by
          unfold jumpMask
          rw [List.getElem?_append_left (by
            rw [List.length_map]
            exact (List.getElem?_eq_some.1 hz).1)]
          rw [List.getElem?_map, hz]
          simp only [Option.map_some']
          exact congrArg some (decide_eq_true hj)
        have hat : mxs[i]? = some none := by
          rw [hmx]
          exact zipWith_getElem_some _ _ _ i a.1 true hx1 hmask
        unfold segVisible
        simp only [List.getD_eq_getElem?_getD]
        simp [hat]
      · have hx1 : ((trajWindow t Xt dt).map Prod.snd)[i]? = some a.2 := by
          rw [List.getElem?_map, ha]; rfl
        have hx2 : ((trajWindow t Xt dt).map Prod.snd)[i + 1]? = some b.2 := by
          rw [List.getElem?_map, hb]; rfl
        have hz := zip_tail_getElem _ i a.2 b.2 hx1 hx2
        have hmask : (jumpMask ((trajWindow t Xt dt).map Prod.snd) l)[i]? = some true := by
          unfold jumpMask
          rw [List.getElem?_append_left (by
            rw [List.length_map]
            exact (List.getElem?_eq_some.1 hz).1)]
          rw [List.getElem?_map, hz]
          simp only [Option.map_some']
          exact congrArg some (decide_eq_true hj)
        have hat : mys[i]? = some none := by
          rw [hmy]
          exact zipWith_getElem_some _ _ _ i a.2 true hx1 hmask
        unfold segVisible
        simp only [List.getD_eq_getElem?_getD]
        simp [hat]

theorem trajectory_masks_jumps_witness :
    segVisible (applyMask [0, 5] (jumpMask [0, 5] 3))
      (applyMask [0, 0] (jumpMask [0, 0] 3)) 0 = false := by
  refine (trajectory_masks_jumps 1 [(0, 0), (5, 0)] 3 ("grey") 20 0 (0, 0) (5, 0)).2
    rfl rfl (Or.inl (by norm_num))
    (applyMask [0, 5] (jumpMask [0, 5] 3)) (applyMask [0, 0] (jumpMask [0, 0] 3))
    ("grey") (3 / 10) ?_
  exact List.mem_singleton.mpr rfl

/-! ### Association-list lemmas -/

theorem alook_append {κ α : Type} [DecidableEq κ] (k : κ) :
    ∀ l1 l2 : List (κ × α), alook k (l1 ++ l2) = (alook k l1).or (alook k l2) := by
  intro l1 l2
  induction l1 with
  | nil => simp [alook]
  | cons kv rest ih =>
    obtain ⟨k2, v⟩ := kv
    by_cases h : k2 = k <;> simp [alook, h, ih]

theorem alook_mem {κ α : Type} [DecidableEq κ] (k : κ) (v : α) :
    ∀ l : List (κ × α), alook k l = some v → (k, v) ∈ l := by
  intro l
  induction l with
  | nil => intro h; simp [alook] at h
  | cons kv rest ih =>
    obtain ⟨k2, v2⟩ := kv
    intro h
    by_cases hk : k2 = k
    · subst hk
      simp [alook] at h
      simp [h]
    · simp only [alook, if_neg hk] at h
      exact List.mem_cons_of_mem _ (ih h)

theorem alook_isSome_of_mem_keys {κ α : Type} [DecidableEq κ] (k : κ) :
    ∀ l : List (κ × α), k ∈ l.map Prod.fst → (alook k l).isSome := by
  intro l
  induction l with
  | nil => intro h; simp at h
  | cons kv rest ih =>
    obtain ⟨k2, v2⟩ := kv
    intro h
    by_cases hk : k2 = k
    · simp [alook, hk]
    · simp only [List.map_cons, List.mem_cons] at h
      rcases h with h | h
      · exact absurd h.symm hk
      · simpa [alook, hk] using ih h

theorem alook_mapUpd (s s2 : String) (g : ℚ → ℚ) :
    ∀ l : Leaf, alook s2 (mapUpd s g l) =
      if s2 = s then (alook s l).map g else alook s2 l := by
  intro l
  induction l with
  | nil => simp [mapUpd, alook]
  | cons kv rest ih =>
    obtain ⟨k, v⟩ := kv
    by_cases hk : k = s
    · subst hk
      by_cases h2 : s2 = k
      · subst h2
        simp [mapUpd, alook]
      · have hk2 : ¬ (k = s2) := fun h => h2 h.symm
        simp [mapUpd, alook, h2, hk2]
    · by_cases h2 : k = s2
      · subst h2
        simp [mapUpd, alook, hk]
      · simp [mapUpd, alook, hk, h2, ih]

theorem isSome_alook_mapUpd (s s2 : String) (g : ℚ → ℚ) (l : Leaf) :
    (alook s2 (mapUpd s g l)).isSome = (alook s2 l).isSome := by
  rw [alook_mapUpd]
  split
  · next h => subst h; cases alook s2 l <;> simp
  · rfl

theorem keys_mapUpd (s : String) (g : ℚ → ℚ) :
    ∀ l : Leaf, (mapUpd s g l).map Prod.fst = l.map Prod.fst := by
  intro l
  induction l with
  | nil => rfl
  | cons kv rest ih =>
    obtain ⟨k, v⟩ := kv
    by_cases hk : k = s <;> simp [mapUpd, hk, ih]

theorem alook_addOrSet (s s2 : String) (x : ℚ) (l : Leaf) :
    alook s2 (addOrSet l s x) =
      if s2 = s then some ((alook s l).getD 0 + x) else alook s2 l := by
  unfold addOrSet
  by_cases hp : (alook s l).isSome
  · rw [if_pos hp, alook_mapUpd]
    obtain ⟨v, hv⟩ := Option.isSome_iff_exists.1 hp
    rw [hv]
    split <;> simp [hv]
  · rw [if_neg hp, alook_append]
    have hn : alook s l = none := Option.not_isSome_iff_eq_none.1 hp
    by_cases h2 : s2 = s
    · subst h2
      simp [hn, alook]
    · have h3 : alook s2 [(s, x)] = none := by
        have hns : ¬ (s = s2) := fun h => h2 h.symm
        simp [alook, hns]
      rw [h3, if_neg h2]
      cases alook s2 l <;> rfl

theorem keys_addOrSet (s : String) (x : ℚ) (l : Leaf) :
    (addOrSet l s x).map Prod.fst =
      if (alook s l).isSome then l.map Prod.fst else l.map Prod.fst ++ [s] := by
  unfold addOrSet
  split
  · rw [keys_mapUpd]
  · simp

theorem isSome_alook_addOrSet (s s2 : String) (x : ℚ) (l : Leaf)
    (h : (alook s2 l).isSome) : (alook s2 (addOrSet l s x)).isSome := by
  rw [alook_addOrSet]
  split <;> simp [h]

theorem isSome_alook_addOrSet_self (s : String) (x : ℚ) (l : Leaf) :
    (alook s (addOrSet l s x)).isSome := by
  rw [alook_addOrSet, if_pos rfl]
  rfl

/-! ### Lemmas about the statistics accumulation of one batch -/

theorem alook_addExp_notmem (s : String) (names : List String) (hs : s ∉ names) :
    ∀ (vals : String → ℚ) (l : Leaf), alook s (addExp names vals l) = alook s l := by
  induction names with
  | nil => intro vals l; rfl
  | cons n0 rest ih =>
    intro vals l
    have hs0 : s ≠ n0 := fun h => hs (h ▸ List.mem_cons_self n0 rest)
    have hsr : s ∉ rest := fun h => hs (List.mem_cons_of_mem _ h)
    show alook s (addExp rest vals (addOrSet l n0 (vals n0))) = alook s l
    rw [ih hsr, alook_addOrSet, if_neg hs0]

theorem alook_addExp_mem (s : String) (names : List String) (hnd : names.Nodup)
    (hs : s ∈ names) :
    ∀ (vals : String → ℚ) (l : Leaf),
      alook s (addExp names vals l) = some ((alook s l).getD 0 + vals s) := by
  induction names with
  | nil => cases hs
  | cons n0 rest ih =>
    intro vals l
    rcases List.mem_cons.1 hs with h0 | hr
    · subst h0
      have hsr : s ∉ rest := (List.nodup_cons.1 hnd).1
      show alook s (addExp rest vals (addOrSet l s (vals s))) = _
      rw [alook_addExp_notmem s rest hsr, alook_addOrSet, if_pos rfl]
    · have hs0 : s ≠ n0 := by
        rintro rfl
        exact (List.nodup_cons.1 hnd).1 hr
      show alook s (addExp rest vals (addOrSet l n0 (vals n0))) = _
      rw [ih (List.nodup_cons.1 hnd).2 hr, alook_addOrSet, if_neg hs0]

theorem isSome_alook_addExp (s : String) (names : List String) :
    ∀ (vals : String → ℚ) (l : Leaf), (alook s l).isSome →
      (alook s (addExp names vals l)).isSome := by
  induction names with
  | nil => intro vals l h; exact h
  | cons n0 rest ih =>
    intro vals l h
    exact ih vals _ (isSome_alook_addOrSet n0 s (vals n0) l h)

theorem isSome_alook_addExp_mem (s : String) (names : List String) (hs : s ∈ names) :
    ∀ (vals : String → ℚ) (l : Leaf), (alook s (addExp names vals l)).isSome := by
  induction names with
  | nil => cases hs
  | cons n0 rest ih =>
    intro vals l
    rcases List.mem_cons.1 hs with h0 | hr
    · subst h0
      exact isSome_alook_addExp s rest vals _ (isSome_alook_addOrSet_self s (vals s) l)
    · exact ih hr vals _

/-- The statistics loop over the experiments of a batch, as a fold. -/
theorem alook_expsFold_mem (s : String) (names : List String) (hnd : names.Nodup)
    (hs : s ∈ names) (v : String → String → ℚ) :
    ∀ (e : String) (exps : List String) (l : Leaf),
      alook s ((e :: exps).foldl (fun acc x => addExp names (v x) acc) l) =
        some ((alook s l).getD 0 + (((e :: exps).map (fun x => v x s)).sum)) := by
  intro e exps
  induction exps generalizing e with
  | nil =>
    intro l
    show alook s (addExp names (v e) l) = _
    rw [alook_addExp_mem s names hnd hs]
    simp
  | cons e2 rest ih =>
    intro l
    show alook s ((e2 :: rest).foldl (fun acc x => addExp names (v x) acc)
      (addExp names (v e) l)) = _
    rw [ih e2, alook_addExp_mem s names hnd hs]
    simp [add_assoc]

theorem isSome_alook_expsFold (s : String) (names : List String) (hs : s ∈ names)
    (v : String → String → ℚ) :
    ∀ (e : String) (exps : List String) (l : Leaf),
      (alook s ((e :: exps).foldl (fun acc x => addExp names (v x) acc) l)).isSome := by
  intro e exps
  induction exps generalizing e with
  | nil => intro l; exact isSome_alook_addExp_mem s names hs (v e) l
  | cons e2 rest ih => intro l; exact ih e2 _

/-! ### Lemmas about the division by `count` -/

theorem alook_divAll_notmem (s : String) (names : List String) (hs : s ∉ names) (c : ℚ) :
    ∀ l : Leaf, alook s (divAll names c l) = alook s l := by
  induction names with
  | nil => intro l; rfl
  | cons n0 rest ih =>
    intro l
    have hs0 : s ≠ n0 := fun h => hs (h ▸ List.mem_cons_self n0 rest)
    have hsr : s ∉ rest := fun h => hs (List.mem_cons_of_mem _ h)
    show alook s (divAll rest c (mapUpd n0 (fun w => w / c) l)) = alook s l
    rw [ih hsr, alook_mapUpd, if_neg hs0]

theorem alook_divAll_mem (s : String) (names : List String) (hnd : names.Nodup)
    (hs : s ∈ names) (c : ℚ) :
    ∀ l : Leaf, alook s (divAll names c l) = (alook s l).map (fun w => w / c) := by
  induction names with
  | nil => cases hs
  | cons n0 rest ih =>
    intro l
    rcases List.mem_cons.1 hs with h0 | hr
    · subst h0
      have hsr : s ∉ rest := (List.nodup_cons.1 hnd).1
      show alook s (divAll rest c (mapUpd s (fun w => w / c) l)) = _
      rw [alook_divAll_notmem s rest hsr, alook_mapUpd, if_pos rfl]
    · have hs0 : s ≠ n0 := by
        rintro rfl
        exact (List.nodup_cons.1 hnd).1 hr
      show alook s (divAll rest c (mapUpd n0 (fun w => w / c) l)) = _
      rw [ih (List.nodup_cons.1 hnd).2 hr, alook_mapUpd, if_neg hs0]

theorem isSome_alook_divAll (s : String) (names : List String) (c : ℚ) :
    ∀ l : Leaf, (alook s (divAll names c l)).isSome = (alook s l).isSome := by
  induction names with
  | nil => intro l; rfl
  | cons n0 rest ih =>
    intro l
    show (alook s (divAll rest c (mapUpd n0 (fun w => w / c) l))).isSome = _
    rw [ih, isSome_alook_mapUpd]

theorem keys_divAll (names : List String) (c : ℚ) :
    ∀ l : Leaf, (divAll names c l).map Prod.fst = l.map Prod.fst := by
  induction names with
  | nil => intro l; rfl
  | cons n0 rest ih =>
    intro l
    show (divAll rest c (mapUpd n0 (fun w => w / c) l)).map Prod.fst = _
    rw [ih, keys_mapUpd]

/-! ### The net effect of one batch on its innermost dict -/

theorem alook_batchLeafUpd (models : List (String × FlockModel)) (sFn : SFn)
    (names : List String) (skip : ℕ) (batch : String) (hnd : names.Nodup)
    (s : String) (hs : s ∈ names) (e : String) (exps : List String)
    (hexp : expIn models batch = e :: exps) (l : Leaf) :
    alook s (batchLeafUpd models sFn names skip batch l) =
      some (((alook s l).getD 0 +
        (((expIn models batch).map (fun x => statVal sFn skip (getModel models x) s)).sum)) /
        ((countOf models batch : ℤ) : ℚ)) := by
  unfold batchLeafUpd
  rw [alook_divAll_mem s names hnd hs, hexp,
    alook_expsFold_mem s names hnd hs (fun x => statVal sFn skip (getModel models x))]
  simp [hexp]

theorem isSome_alook_batchLeafUpd (models : List (String × FlockModel)) (sFn : SFn)
    (names : List String) (skip : ℕ) (batch : String) (s : String) (hs : s ∈ names)
    (e : String) (exps : List String) (hexp : expIn models batch = e :: exps) (l : Leaf) :
    (alook s (batchLeafUpd models sFn names skip batch l)).isSome := by
  unfold batchLeafUpd
  rw [isSome_alook_divAll, hexp]
  exact isSome_alook_expsFold s names hs _ e exps l

/-! ### Keys written by the statistics loop -/

theorem keys_addExp (v : String → ℚ) :
    ∀ names : List String, names.Nodup → ∀ l : Leaf,
      (addExp names v l).map Prod.fst =
        l.map Prod.fst ++ names.filter (fun s => !(alook s l).isSome) := by
  intro names
  induction names with
  | nil => intro _ l; simp [addExp]
  | cons n0 rest ih =>
    intro hnd l
    show (addExp rest v (addOrSet l n0 (v n0))).map Prod.fst = _
    rw [ih (List.nodup_cons.1 hnd).2]
    have hfil : rest.filter (fun s => !(alook s (addOrSet l n0 (v n0))).isSome) =
        rest.filter (fun s => !(alook s l).isSome) := by
      apply List.filter_congr
      intro s hsr
      have hs0 : s ≠ n0 := by
        rintro rfl
        exact (List.nodup_cons.1 hnd).1 hsr
      rw [alook_addOrSet, if_neg hs0]
    rw [hfil, keys_addOrSet]
    by_cases hp : (alook n0 l).isSome
    · rw [if_pos hp]
      rw [List.filter_cons]
      simp [hp]
    · rw [if_neg hp]
      rw [List.filter_cons]
      simp [hp, Option.not_isSome_iff_eq_none.1 hp]

theorem keys_expsFold (names : List String) (hnd : names.Nodup)
    (v : String → String → ℚ) :
    ∀ (e : String) (exps : List String) (l : Leaf),
      ((e :: exps).foldl (fun acc x => addExp names (v x) acc) l).map Prod.fst =
        l.map Prod.fst ++ names.filter (fun s => !(alook s l).isSome) := by
  intro e exps
  induction exps generalizing e with
  | nil => intro l; exact keys_addExp (v e) names hnd l
  | cons e2 rest ih =>
    intro l
    show ((e2 :: rest).foldl (fun acc x => addExp names (v x) acc)
      (addExp names (v e) l)).map Prod.fst = _
    rw [ih e2, keys_addExp (v e) names hnd]
    have hfil : names.filter (fun s => !(alook s (addExp names (v e) l)).isSome) = [] := by
      rw [List.filter_eq_nil_iff]
      intro s hs
      simp [isSome_alook_addExp_mem s names hs (v e) l]
    rw [hfil]
    simp

theorem keys_batchLeafUpd (models : List (String × FlockModel)) (sFn : SFn)
    (names : List String) (skip : ℕ) (batch : String) (hnd : names.Nodup)
    (e : String) (exps : List String) (hexp : expIn models batch = e :: exps) (l : Leaf) :
    (batchLeafUpd models sFn names skip batch l).map Prod.fst =
      l.map Prod.fst ++ names.filter (fun s => !(alook s l).isSome) := by
  unfold batchLeafUpd
  rw [keys_divAll, hexp, keys_expsFold names hnd _]

/-! ### Sorting and batch membership -/

theorem insertStr_perm (x : String) : ∀ l : List String, (insertStr x l).Perm (x :: l) := by
  intro l
  induction l with
  | nil => exact List.Perm.refl _
  | cons y ys ih =>
    show (if lexLtCh y.toList x.toList then y :: insertStr x ys else x :: y :: ys).Perm _
    split
    · exact ((ih.cons y).trans (List.Perm.swap x y ys))
    · exact List.Perm.refl _

theorem sortStr_perm : ∀ l : List String, (sortStr l).Perm l := by
  intro l
  induction l with
  | nil => exact List.Perm.refl _
  | cons x xs ih => exact (insertStr_perm x (sortStr xs)).trans (ih.cons x)

theorem mem_sortStr {a : String} {l : List String} : a ∈ sortStr l ↔ a ∈ l :=
  (sortStr_perm l).mem_iff

theorem sortStr_nodup {l : List String} (h : l.Nodup) : (sortStr l).Nodup :=
  ((sortStr_perm l).nodup_iff).2 h

theorem strContains_self (s : String) : strContains s s = true := by
  unfold strContains
  rw [List.any_eq_true]
  refine ⟨0, List.mem_range.2 (Nat.succ_pos _), ?_⟩
  rw [List.drop_zero]
  exact List.isPrefixOf_iff_prefix.2 (List.prefix_refl _)

theorem mem_expIn_self (models : List (String × FlockModel)) (b : String)
    (hb : b ∈ models.map Prod.fst) : b ∈ expIn models b := by
  unfold expIn
  rw [mem_sortStr]
  exact List.mem_filter.2 ⟨hb, strContains_self b⟩

theorem expIn_ne_nil (models : List (String × FlockModel)) (b : String)
    (hb : b ∈ models.map Prod.fst) : expIn models b ≠ [] :=
  List.ne_nil_of_mem (mem_expIn_self models b hb)

theorem mem_of_mem_batchNames {models : List (String × FlockModel)} {b : String}
    (hb : b ∈ batchNames models) : b ∈ models.map Prod.fst := by
  unfold batchNames at hb
  rw [mem_sortStr] at hb
  exact (List.mem_filter.1 hb).1

theorem batchNames_nodup {models : List (String × FlockModel)}
    (h : (models.map Prod.fst).Nodup) : (batchNames models).Nodup :=
  sortStr_nodup (h.filter _)

/-! ### Lemmas about the nested dict -/

theorem alook_replaceA (k k2 : ℚ) (v : PDict) :
    ∀ m : List (ℚ × PDict), alook k2 (replaceA k v m) =
      if k2 = k then (alook k m).map (fun _ => v) else alook k2 m := by
  intro m
  induction m with
  | nil => simp [replaceA, alook]
  | cons kv rest ih =>
    obtain ⟨k3, v3⟩ := kv
    by_cases hk : k3 = k
    · subst hk
      by_cases h2 : k2 = k3
      · subst h2
        simp [replaceA, alook]
      · have hk2 : ¬ (k3 = k2) := fun h => h2 h.symm
        simp [replaceA, alook, h2, hk2]
    · by_cases h2 : k3 = k2
      · subst h2
        simp [replaceA, alook, hk]
      · simp [replaceA, alook, hk, h2, ih]

theorem mem_replaceA (k : ℚ) (v : PDict) :
    ∀ (m : List (ℚ × PDict)) (kv : ℚ × PDict), kv ∈ replaceA k v m →
      kv ∈ m ∨ kv.2 = v := by
  intro m
  induction m with
  | nil => intro kv h; simp [replaceA] at h
  | cons kv0 rest ih =>
    obtain ⟨k3, v3⟩ := kv0
    intro kv h
    by_cases hk : k3 = k
    · rw [replaceA, if_pos hk] at h
      rcases List.mem_cons.1 h with h | h
      · right; rw [h]
      · left; exact List.mem_cons_of_mem _ h
    · rw [replaceA, if_neg hk] at h
      rcases List.mem_cons.1 h with h | h
      · left; rw [h]; exact List.mem_cons_self _ _
      · rcases ih kv h with h2 | h2
        · left; exact List.mem_cons_of_mem _ h2
        · right; exact h2

theorem lookupPath_nd_some {m : List (ℚ × PDict)} {p : ℚ} {ps : List ℚ} {d0 : PDict}
    (h : alook p m = some d0) :
    PDict.lookupPath (.nd m) (p :: ps) = PDict.lookupPath d0 ps := by
  show (match alook p m with
        | some d => PDict.lookupPath d ps
        | none => none) = _
  rw [h]

theorem lookupPath_nd_none {m : List (ℚ × PDict)} {p : ℚ} {ps : List ℚ}
    (h : alook p m = none) : PDict.lookupPath (.nd m) (p :: ps) = none := by
  show (match alook p m with
        | some d => PDict.lookupPath d ps
        | none => none) = _
  rw [h]

theorem updateAt_nd_some {f : Leaf → Leaf} {m : List (ℚ × PDict)} {p : ℚ} {ps : List ℚ}
    {d0 : PDict} (h : alook p m = some d0) :
    PDict.updateAt f (.nd m) (p :: ps) = .nd (replaceA p (PDict.updateAt f d0 ps) m) := by
  show (match alook p m with
        | some d => PDict.nd (replaceA p (PDict.updateAt f d ps) m)
        | none => PDict.nd (m ++ [(p, PDict.updateAt f (emptyP ps) ps)])) = _
  rw [h]

theorem updateAt_nd_none {f : Leaf → Leaf} {m : List (ℚ × PDict)} {p : ℚ} {ps : List ℚ}
    (h : alook p m = none) :
    PDict.updateAt f (.nd m) (p :: ps) =
      .nd (m ++ [(p, PDict.updateAt f (emptyP ps) ps)]) := by
  show (match alook p m with
        | some d => PDict.nd (replaceA p (PDict.updateAt f d ps) m)
        | none => PDict.nd (m ++ [(p, PDict.updateAt f (emptyP ps) ps)])) = _
  rw [h]

theorem okDepthB_emptyP : ∀ ps : List ℚ, PDict.okDepthB ps.length (emptyP ps) = true := by
  intro ps
  cases ps with
  | nil => rfl
  | cons p ps2 => rfl

theorem okDepthB_emptyFor : ∀ pl : List String,
    PDict.okDepthB pl.length (emptyFor pl) = true := by
  intro pl
  cases pl with
  | nil => rfl
  | cons p pl2 => rfl

theorem lookupPath_emptyP : ∀ ps qs : List ℚ,
    (emptyP ps).lookupPath qs = if ps = [] ∧ qs = [] then some [] else none := by
  intro ps qs
  cases ps with
  | nil =>
    cases qs with
    | nil => rfl
    | cons q qs2 => rfl
  | cons p ps2 =>
    cases qs with
    | nil => rfl
    | cons q qs2 =>
      rw [if_neg (by simp)]
      exact lookupPath_nd_none (by rfl)

theorem lookupPath_emptyFor : ∀ (pl : List String) (qs : List ℚ),
    (emptyFor pl).lookupPath qs = if pl = [] ∧ qs = [] then some [] else none := by
  intro pl qs
  cases pl with
  | nil =>
    cases qs with
    | nil => rfl
    | cons q qs2 => rfl
  | cons p pl2 =>
    cases qs with
    | nil => rfl
    | cons q qs2 =>
      rw [if_neg (by simp)]
      exact lookupPath_nd_none (by rfl)

theorem lookupPath_updateAt_self (f : Leaf → Leaf) :
    ∀ (path : List ℚ) (d : PDict), PDict.okDepthB path.length d = true →
      (d.updateAt f path).lookupPath path = some (f ((d.lookupPath path).getD [])) := by
  intro path
  induction path with
  | nil =>
    intro d hd
    cases d with
    | lf s => rfl
    | nd m => simp [PDict.okDepthB] at hd
  | cons p ps ih =>
    intro d hd
    cases d with
    | lf s => simp [PDict.okDepthB] at hd
    | nd m =>
      cases halook : alook p m with
      | some d0 =>
        rw [updateAt_nd_some halook]
        have hrep : alook p (replaceA p (PDict.updateAt f d0 ps) m) =
            some (PDict.updateAt f d0 ps) := by
          rw [alook_replaceA, if_pos rfl, halook]
          rfl
        rw [lookupPath_nd_some hrep]
        have hd0 : PDict.okDepthB ps.length d0 = true := by
          simp only [List.length_cons, PDict.okDepthB, List.all_eq_true] at hd
          exact hd _ (alook_mem p d0 m halook)
        rw [ih d0 hd0, lookupPath_nd_some halook]
      | none =>
        rw [updateAt_nd_none halook]
        have h2 : alook p (m ++ [(p, PDict.updateAt f (emptyP ps) ps)]) =
            some (PDict.updateAt f (emptyP ps) ps) := by
          rw [alook_append, halook]
          simp [alook]
        rw [lookupPath_nd_some h2, ih (emptyP ps) (okDepthB_emptyP ps),
          lookupPath_nd_none halook, lookupPath_emptyP]
        cases ps with
        | nil => rfl
        | cons q qs => rw [if_neg (by simp)]

theorem lookupPath_updateAt_other (f : Leaf → Leaf) :
    ∀ (p q : List ℚ) (d : PDict), q ≠ p →
      (d.updateAt f p).lookupPath q = d.lookupPath q := by
  intro p
  induction p with
  | nil =>
    intro q d hq
    cases d with
    | lf s =>
      cases q with
      | nil => exact absurd rfl hq
      | cons x xs => rfl
    | nd m => rfl
  | cons p0 ps ih =>
    intro q d hq
    cases d with
    | lf s => rfl
    | nd m =>
      cases halook : alook p0 m with
      | some d0 =>
        rw [updateAt_nd_some halook]
        cases q with
        | nil => rfl
        | cons q0 qs =>
          by_cases hq0 : q0 = p0
          · subst hq0
            have hqs : qs ≠ ps := fun h => hq (by rw [h])
            have hrep : alook q0 (replaceA q0 (PDict.updateAt f d0 ps) m) =
                some (PDict.updateAt f d0 ps) := by
              rw [alook_replaceA, if_pos rfl, halook]
              rfl
            rw [lookupPath_nd_some hrep, lookupPath_nd_some halook]
            exact ih qs d0 hqs
          · have hrep : alook q0 (replaceA p0 (PDict.updateAt f d0 ps) m) =
                alook q0 m := by
              rw [alook_replaceA, if_neg hq0]
            cases h2 : alook q0 m with
            | some d1 =>
              rw [lookupPath_nd_some (hrep.trans h2), lookupPath_nd_some h2]
            | none =>
              rw [lookupPath_nd_none (hrep.trans h2), lookupPath_nd_none h2]
      | none =>
        rw [updateAt_nd_none halook]
        cases q with
        | nil => rfl
        | cons q0 qs =>
          by_cases hq0 : q0 = p0
          · subst hq0
            have hqs : qs ≠ ps := fun h => hq (by rw [h])
            have h2 : alook q0 (m ++ [(q0, PDict.updateAt f (emptyP ps) ps)]) =
                some (PDict.updateAt f (emptyP ps) ps) := by
              rw [alook_append, halook]
              simp [alook]
            rw [lookupPath_nd_some h2, lookupPath_nd_none halook,
              ih qs (emptyP ps) hqs, lookupPath_emptyP]
            cases hps : ps with
            | nil =>
              rw [if_neg ?_]
              rintro ⟨-, rfl⟩
              exact hqs (by rw [hps])
            | cons r rs => rw [if_neg (by simp)]
          · have h2 : alook q0 (m ++ [(p0, PDict.updateAt f (emptyP ps) ps)]) =
                alook q0 m := by
              rw [alook_append]
              have h3 : alook q0 [(p0, PDict.updateAt f (emptyP ps) ps)] = none := by
                have hns : ¬ (p0 = q0) := fun h => hq0 h.symm
                simp [alook, hns]
              rw [h3]
              cases alook q0 m <;> rfl
            cases h4 : alook q0 m with
            | some d1 =>
              rw [lookupPath_nd_some (h2.trans h4), lookupPath_nd_some h4]
            | none =>
              rw [lookupPath_nd_none (h2.trans h4), lookupPath_nd_none h4]

theorem okDepthB_updateAt (f : Leaf → Leaf) :
    ∀ (path : List ℚ) (d : PDict), PDict.okDepthB path.length d = true →
      PDict.okDepthB path.length (d.updateAt f path) = true := by
  intro path
  induction path with
  | nil =>
    intro d hd
    cases d with
    | lf s => rfl
    | nd m => simp [PDict.okDepthB] at hd
  | cons p ps ih =>
    intro d hd
    cases d with
    | lf s => simp [PDict.okDepthB] at hd
    | nd m =>
      simp only [List.length_cons, PDict.okDepthB, List.all_eq_true] at hd
      cases halook : alook p m with
      | some d0 =>
        rw [updateAt_nd_some halook]
        simp only [List.length_cons, PDict.okDepthB, List.all_eq_true]
        intro kv hkv
        rcases mem_replaceA p (PDict.updateAt f d0 ps) m kv hkv with h | h
        · exact hd _ h
        · rw [h]
          exact ih d0 (hd _ (alook_mem p d0 m halook))
      | none =>
        rw [updateAt_nd_none halook]
        simp only [List.length_cons, PDict.okDepthB, List.all_eq_true]
        intro kv hkv
        rcases List.mem_append.1 hkv with h | h
        · exact hd _ h
        · rcases List.mem_singleton.1 h with rfl
          exact ih (emptyP ps) (okDepthB_emptyP ps)

theorem lookupPath_badlength :
    ∀ (q : List ℚ) (d : PDict) (n : ℕ), PDict.okDepthB n d = true → q.length ≠ n →
      d.lookupPath q = none := by
  intro q
  induction q with
  | nil =>
    intro d n hd hq
    cases d with
    | lf s =>
      cases n with
      | zero => exact absurd rfl hq
      | succ k => simp [PDict.okDepthB] at hd
    | nd m => rfl
  | cons p ps ih =>
    intro d n hd hq
    cases d with
    | lf s =>
      cases n with
      | zero => rfl
      | succ k => simp [PDict.okDepthB] at hd
    | nd m =>
      cases n with
      | zero => simp [PDict.okDepthB] at hd
      | succ k =>
        cases halook : alook p m with
        | some d0 =>
          rw [lookupPath_nd_some halook]
          simp only [PDict.okDepthB, List.all_eq_true] at hd
          exact ih d0 k (hd _ (alook_mem p d0 m halook))
            (fun h => hq (by simp [h]))
        | none => exact lookupPath_nd_none halook

theorem lookupNode_take_isSome :
    ∀ (q : List ℚ) (d : PDict) (leaf : Leaf), d.lookupPath q = some leaf →
      ∀ k : ℕ, (d.lookupNode (q.take k)).isSome := by
  intro q
  induction q with
  | nil =>
    intro d leaf h k
    simp [PDict.lookupNode]
  | cons p ps ih =>
    intro d leaf h k
    cases d with
    | lf s => simp [PDict.lookupPath] at h
    | nd m =>
      cases halook : alook p m with
      | none => rw [lookupPath_nd_none halook] at h; cases h
      | some d0 =>
        rw [lookupPath_nd_some halook] at h
        cases k with
        | zero => simp [PDict.lookupNode]
        | succ j =>
          rw [List.take_succ_cons]
          show (PDict.lookupNode (.nd m) (p :: ps.take j)).isSome
          have : PDict.lookupNode (.nd m) (p :: ps.take j) =
              PDict.lookupNode d0 (ps.take j) := by
            show (match alook p m with
                  | some d => PDict.lookupNode d (ps.take j)
                  | none => none) = _
            rw [halook]
          rw [this]
          exact ih d0 leaf h j

/-! ### The batch loop -/

theorem isSome_alook_expsFold_pres (s : String) (names : List String)
    (v : String → String → ℚ) :
    ∀ (exps : List String) (l : Leaf), (alook s l).isSome →
      (alook s (exps.foldl (fun acc x => addExp names (v x) acc) l)).isSome := by
  intro exps
  induction exps with
  | nil => intro l h; exact h
  | cons e rest ih => intro l h; exact ih _ (isSome_alook_addExp s names (v e) l h)

theorem isSome_alook_batchLeafUpd_pres (models : List (String × FlockModel)) (sFn : SFn)
    (names : List String) (skip : ℕ) (batch : String) (s : String) (l : Leaf)
    (h : (alook s l).isSome) :
    (alook s (batchLeafUpd models sFn names skip batch l)).isSome := by
  unfold batchLeafUpd
  rw [isSome_alook_divAll]
  exact isSome_alook_expsFold_pres s names _ _ l h

theorem pathOf_length (models : List (String × FlockModel)) (pl : List String)
    (b : String) : (pathOf models pl b).length = pl.length := by
  simp [pathOf]

theorem foldl_PB_lookup_other (models : List (String × FlockModel)) (sFn : SFn)
    (pl names : List String) (skip : ℕ) :
    ∀ (bs : List String) (d : PDict) (q : List ℚ),
      (∀ b ∈ bs, pathOf models pl b ≠ q) →
      (bs.foldl (processBatch models sFn pl names skip) d).lookupPath q =
        d.lookupPath q := by
  intro bs
  induction bs with
  | nil => intro d q _; rfl
  | cons b0 rest ih =>
    intro d q h
    show (rest.foldl _ (processBatch models sFn pl names skip d b0)).lookupPath q = _
    rw [ih _ q (fun b hb => h b (List.mem_cons_of_mem _ hb))]
    unfold processBatch
    exact lookupPath_updateAt_other _ _ q d
      (fun hqe => h b0 (List.mem_cons_self _ _) hqe.symm)

theorem okDepthB_foldl_PB (models : List (String × FlockModel)) (sFn : SFn)
    (pl names : List String) (skip : ℕ) :
    ∀ (bs : List String) (d : PDict), PDict.okDepthB pl.length d = true →
      PDict.okDepthB pl.length
        (bs.foldl (processBatch models sFn pl names skip) d) = true := by
  intro bs
  induction bs with
  | nil => intro d h; exact h
  | cons b0 rest ih =>
    intro d h
    apply ih
    unfold processBatch
    rw [← pathOf_length models pl b0] at h ⊢
    exact okDepthB_updateAt _ _ d h

theorem foldl_PB_at (models : List (String × FlockModel)) (sFn : SFn)
    (pl names : List String) (skip : ℕ) :
    ∀ (bs : List String) (d : PDict) (b : String),
      PDict.okDepthB pl.length d = true → bs.Nodup → b ∈ bs →
      (∀ b2 ∈ bs, b2 ≠ b → pathOf models pl b2 ≠ pathOf models pl b) →
      (bs.foldl (processBatch models sFn pl names skip) d).lookupPath
          (pathOf models pl b) =
        some (batchLeafUpd models sFn names skip b
          ((d.lookupPath (pathOf models pl b)).getD [])) := by
  intro bs
  induction bs with
  | nil => intro d b _ _ hb; cases hb
  | cons b0 rest ih =>
    intro d b hd hnd hb hinj
    by_cases hmem : b ∈ rest
    · have hb0b : b0 ≠ b := by
        rintro rfl
        exact (List.nodup_cons.1 hnd).1 hmem
      have hpne : pathOf models pl b0 ≠ pathOf models pl b :=
        hinj b0 (List.mem_cons_self _ _) hb0b
      have hstep : (processBatch models sFn pl names skip d b0).lookupPath
          (pathOf models pl b) = d.lookupPath (pathOf models pl b) := by
        unfold processBatch
        exact lookupPath_updateAt_other _ _ _ d (fun h => hpne h.symm)
      have hdep : PDict.okDepthB pl.length
          (processBatch models sFn pl names skip d b0) = true := by
        unfold processBatch
        rw [← pathOf_length models pl b0] at hd ⊢
        exact okDepthB_updateAt _ _ d hd
      show (rest.foldl _ (processBatch models sFn pl names skip d b0)).lookupPath _ = _
      rw [ih _ b hdep (List.nodup_cons.1 hnd).2 hmem
        (fun b2 h2 => hinj b2 (List.mem_cons_of_mem _ h2)), hstep]
    · have hbb0 : b = b0 := by
        rcases List.mem_cons.1 hb with h | h
        · exact h
        · exact absurd h hmem
      subst hbb0
      have hself : (processBatch models sFn pl names skip d b).lookupPath
          (pathOf models pl b) =
          some (batchLeafUpd models sFn names skip b
            ((d.lookupPath (pathOf models pl b)).getD [])) := by
        unfold processBatch
        have hd2 : PDict.okDepthB (pathOf models pl b).length d = true := by
          rw [pathOf_length]
          exact hd
        exact lookupPath_updateAt_self _ _ d hd2
      show (rest.foldl _ (processBatch models sFn pl names skip d b)).lookupPath _ = _
      rw [foldl_PB_lookup_other models sFn pl names skip rest _ _ ?hother, hself]
      case hother =>
        intro b2 h2
        have hb2b : b2 ≠ b := fun heq => hmem (heq ▸ h2)
        exact hinj b2 (List.mem_cons_of_mem _ h2) hb2b

theorem foldl_PB_keep_present (models : List (String × FlockModel)) (sFn : SFn)
    (pl names : List String) (skip : ℕ) :
    ∀ (bs : List String) (d : PDict) (q : List ℚ) (leaf : Leaf),
      PDict.okDepthB pl.length d = true → q.length = pl.length →
      d.lookupPath q = some leaf → (∀ s ∈ names, (alook s leaf).isSome) →
      ∃ leaf2,
        (bs.foldl (processBatch models sFn pl names skip) d).lookupPath q = some leaf2 ∧
        ∀ s ∈ names, (alook s leaf2).isSome := by
  intro bs
  induction bs with
  | nil => intro d q leaf _ _ h hp; exact ⟨leaf, h, hp⟩
  | cons b0 rest ih =>
    intro d q leaf hd hq h hp
    have hdep : PDict.okDepthB pl.length
        (processBatch models sFn pl names skip d b0) = true := by
      unfold processBatch
      rw [← pathOf_length models pl b0] at hd ⊢
      exact okDepthB_updateAt _ _ d hd
    by_cases hpq : pathOf models pl b0 = q
    · have hself : (processBatch models sFn pl names skip d b0).lookupPath q =
          some (batchLeafUpd models sFn names skip b0 leaf) := by
        unfold processBatch
        rw [hpq]
        have hd2 : PDict.okDepthB q.length d = true := by rw [hq]; exact hd
        rw [lookupPath_updateAt_self _ _ d hd2, h]
        rfl
      exact ih _ q _ hdep hq hself
        (fun s hs => isSome_alook_batchLeafUpd_pres models sFn names skip b0 s leaf
          (hp s hs))
    · have hstep : (processBatch models sFn pl names skip d b0).lookupPath q =
          some leaf := by
        unfold processBatch
        rw [lookupPath_updateAt_other _ _ q d (fun hh => hpq hh.symm), h]
      exact ih _ q _ hdep hq hstep hp

theorem foldl_PB_present (models : List (String × FlockModel)) (sFn : SFn)
    (pl names : List String) (skip : ℕ) :
    ∀ (bs : List String) (d : PDict) (b : String),
      PDict.okDepthB pl.length d = true → b ∈ bs →
      (∀ b2 ∈ bs, b2 ∈ models.map Prod.fst) →
      ∃ leaf,
        (bs.foldl (processBatch models sFn pl names skip) d).lookupPath
          (pathOf models pl b) = some leaf ∧
        ∀ s ∈ names, (alook s leaf).isSome := by
  intro bs
  induction bs with
  | nil => intro d b _ hb; cases hb
  | cons b0 rest ih =>
    intro d b hd hb hkeys
    have hdep : PDict.okDepthB pl.length
        (processBatch models sFn pl names skip d b0) = true := by
      unfold processBatch
      rw [← pathOf_length models pl b0] at hd ⊢
      exact okDepthB_updateAt _ _ d hd
    by_cases hmem : b ∈ rest
    · exact ih _ b hdep hmem (fun b2 h2 => hkeys b2 (List.mem_cons_of_mem _ h2))
    · have hbb0 : b = b0 := by
        rcases List.mem_cons.1 hb with h | h
        · exact h
        · exact absurd h hmem
      subst hbb0
      obtain ⟨e, exps, hexp⟩ := List.exists_cons_of_ne_nil
        (expIn_ne_nil models b (hkeys b (List.mem_cons_self _ _)))
      have hself : (processBatch models sFn pl names skip d b).lookupPath
          (pathOf models pl b) =
          some (batchLeafUpd models sFn names skip b
            ((d.lookupPath (pathOf models pl b)).getD [])) := by
        unfold processBatch
        have hd2 : PDict.okDepthB (pathOf models pl b).length d = true := by
          rw [pathOf_length]
          exact hd
        exact lookupPath_updateAt_self _ _ d hd2
      exact foldl_PB_keep_present models sFn pl names skip rest _ _ _ hdep
        (pathOf_length models pl b) hself
        (fun s hs => isSome_alook_batchLeafUpd models sFn names skip b s hs e exps hexp _)

theorem agg_ok_elim {models : List (String × FlockModel)} {pl names : List String}
    {sFn : SFn} {skip : ℕ} {d : PDict}
    (hd : aggregate_model_stats models pl names sFn skip = .ok d) :
    d = (batchNames models).foldl (processBatch models sFn pl names skip)
      (emptyFor pl) := by
  unfold aggregate_model_stats at hd
  cases hfind : pl.find? (fun p =>
      ! ((models.map (fun q => q.2.params.map Prod.fst)).flatten).contains p) with
  | some p => rw [hfind] at hd; cases hd
  | none =>
    rw [hfind] at hd
    exact (Except.ok.inj hd).symm

theorem filter_not_isSome_nil (names : List String) :
    names.filter (fun s => !(alook s ([] : Leaf)).isSome) = names :=
  List.filter_eq_self.2 (fun a _ => rfl)

theorem foldl_PB_keysinv (models : List (String × FlockModel)) (sFn : SFn)
    (pl names : List String) (skip : ℕ) (hnd : names.Nodup) :
    ∀ (bs : List String) (d : PDict),
      PDict.okDepthB pl.length d = true →
      (∀ b2 ∈ bs, b2 ∈ models.map Prod.fst) →
      (∀ q leaf, d.lookupPath q = some leaf → leaf = [] ∨ leaf.map Prod.fst = names) →
      ∀ q leaf,
        (bs.foldl (processBatch models sFn pl names skip) d).lookupPath q = some leaf →
        leaf = [] ∨ leaf.map Prod.fst = names := by
  intro bs
  induction bs with
  | nil => intro d _ _ hinv; exact hinv
  | cons b0 rest ih =>
    intro d hd hkeys hinv
    have hdep : PDict.okDepthB pl.length
        (processBatch models sFn pl names skip d b0) = true := by
      unfold processBatch
      rw [← pathOf_length models pl b0] at hd ⊢
      exact okDepthB_updateAt _ _ d hd
    apply ih _ hdep (fun b2 h2 => hkeys b2 (List.mem_cons_of_mem _ h2))
    intro q leaf hlook
    by_cases hpq : pathOf models pl b0 = q
    · subst hpq
      unfold processBatch at hlook
      have hd2 : PDict.okDepthB (pathOf models pl b0).length d = true := by
        rw [pathOf_length]
        exact hd
      rw [lookupPath_updateAt_self _ _ d hd2] at hlook
      obtain rfl := (Option.some.inj hlook).symm
      obtain ⟨e, exps, hexp⟩ := List.exists_cons_of_ne_nil
        (expIn_ne_nil models b0 (hkeys b0 (List.mem_cons_self _ _)))
      right
      cases hold : d.lookupPath (pathOf models pl b0) with
      | none =>
        show (batchLeafUpd models sFn names skip b0 []).map Prod.fst = names
        rw [keys_batchLeafUpd models sFn names skip b0 hnd e exps hexp]
        rw [filter_not_isSome_nil]
        rfl
      | some leaf0 =>
        show (batchLeafUpd models sFn names skip b0 leaf0).map Prod.fst = names
        rw [keys_batchLeafUpd models sFn names skip b0 hnd e exps hexp]
        rcases hinv _ _ hold with h0 | h0
        · subst h0
          rw [filter_not_isSome_nil]
          rfl
        · have hfil : names.filter (fun s => !(alook s leaf0).isSome) = [] := by
            rw [List.filter_eq_nil_iff]
            intro s hs
            have : (alook s leaf0).isSome := by
              apply alook_isSome_of_mem_keys
              rw [h0]
              exact hs
            simp [this]
          rw [hfil, h0]
          simp
    · unfold processBatch at hlook
      rw [lookupPath_updateAt_other _ _ q d (fun hh => hpq hh.symm)] at hlook
      exact hinv q leaf hlook

/-! ## C1 and C5: what the aggregator stores -/

/-- Evaluation of the aggregator on the concrete batch `cexModels`: the batch
`b` has experiments `b` (repeat index 0) and `b-2` (repeat index 2), so
`count = max(0, 2) + 1 = 3`, and the stored value is `(6 + 6) / 3 = 4`. -/
theorem cex_agg_eval :
    aggregate_model_stats cexModels (["r"]) (["s"]) cexSFn 10 =
      .ok (PDict.nd [(1, PDict.lf [("s", 4)])]) := by
  have h1 : statVal cexSFn 10 (getModel cexModels ("b")) ("s") = 6 := by
    norm_num [statVal, pyMean, cexSFn]
  have h2 : statVal cexSFn 10 (getModel cexModels ("b-2")) ("s") = 6 := by
    norm_num [statVal, pyMean, cexSFn]
  have hc : ((countOf cexModels ("b") : ℤ) : ℚ) = 3 := by decide
  calc aggregate_model_stats cexModels (["r"]) (["s"]) cexSFn 10
      = .ok (PDict.nd [(1, PDict.lf [("s",
          (statVal cexSFn 10 (getModel cexModels ("b")) ("s") +
           statVal cexSFn 10 (getModel cexModels ("b-2")) ("s")) /
          ((countOf cexModels ("b") : ℤ) : ℚ))])]) := rfl
    _ = .ok (PDict.nd [(1, PDict.lf [("s", 4)])]) := by
        rw [h1, h2, hc]
        norm_num

/-- C1 counterexample: for the batch `b` whose experiments are `b` and `b-2`
(the repeat `b-1` is missing), the claim's value — the arithmetic mean over
the two experiments of the statistic's time-average, `(6 + 6) / 2 = 6` — is
not what `aggregate_model_stats` stores: the code divides by
`max(repeat index) + 1 = 3` and stores `4`. -/
theorem aggregate_arithmetic_mean_cex :
    aggLookup (aggregate_model_stats cexModels (["r"]) (["s"]) cexSFn 10) [1] =
      some [("s", 4)] ∧
    pyMean [statVal cexSFn 10 cexModel ("s"), statVal cexSFn 10 cexModel ("s")] = 6 ∧
    (4 : ℚ) ≠ 6 := by
  refine ⟨?_, ?_, by norm_num⟩
  · rw [show aggregate_model_stats cexModels (["r"]) (["s"]) cexSFn 10 =
      .ok (PDict.nd [(1, PDict.lf [("s", 4)])]) from cex_agg_eval]
    rfl
  · norm_num [pyMean, statVal, cexSFn]

/-- C1 (amended): for every batch, `aggregate_model_stats` stores at the
batch's parameter path, for each requested statistic, the sum over all
experiments whose directory name contains the batch name of the statistic's
time-average (over the timepoints after the first `skip`), divided by one
plus the largest repeat-suffix index among those experiments — the
arithmetic mean exactly when the experiments are the batch's repeats
numbered contiguously from the unsuffixed run.  This requires distinct
batches to have distinct parameter tuples (otherwise a later batch
accumulates into an earlier batch's already-divided entries). -/
theorem aggregate_stores_sum_div_maxidx
    (models : List (String × FlockModel)) (pl names : List String) (sFn : SFn)
    (skip : ℕ) (d : PDict) (b stat : String)
    (hkeys : (models.map Prod.fst).Nodup) (hnd : names.Nodup)
    (hinj : ∀ b1 ∈ batchNames models, ∀ b2 ∈ batchNames models,
      b1 ≠ b2 → pathOf models pl b1 ≠ pathOf models pl b2)
    (hd : aggregate_model_stats models pl names sFn skip = .ok d)
    (hb : b ∈ batchNames models) (hs : stat ∈ names) :
    ∃ leaf, d.lookupPath (pathOf models pl b) = some leaf ∧
      alook stat leaf =
        some ((((expIn models b).map
            (fun e => statVal sFn skip (getModel models e) stat)).sum) /
          ((countOf models b : ℤ) : ℚ)) := by
  obtain rfl := agg_ok_elim hd
  have hmain := foldl_PB_at models sFn pl names skip (batchNames models) (emptyFor pl) b
    (okDepthB_emptyFor pl) (batchNames_nodup hkeys) hb
    (fun b2 h2 hne => hinj b2 h2 b hb hne)
  have hstart : ((emptyFor pl).lookupPath (pathOf models pl b)).getD [] = [] := by
    rw [lookupPath_emptyFor]
    split
    · rfl
    · rfl
  rw [hstart] at hmain
  obtain ⟨e, exps, hexp⟩ := List.exists_cons_of_ne_nil
    (expIn_ne_nil models b (mem_of_mem_batchNames hb))
  refine ⟨_, hmain, ?_⟩
  rw [alook_batchLeafUpd models sFn names skip b hnd stat hs e exps hexp []]
  norm_num [alook]

theorem aggregate_stores_sum_div_maxidx_witness :
    ∃ leaf, (PDict.nd [(1, PDict.lf [("s", 4)])]).lookupPath
        (pathOf cexModels (["r"]) ("b")) = some leaf ∧
      alook ("s") leaf =
        some ((((expIn cexModels ("b")).map
            (fun e => statVal cexSFn 10 (getModel cexModels e) ("s"))).sum) /
          ((countOf cexModels ("b") : ℤ) : ℚ)) :=
  aggregate_stores_sum_div_maxidx cexModels (["r"]) (["s"]) cexSFn 10 _ ("b") ("s")
    (by decide) (by decide) (by decide) cex_agg_eval (by decide) (by decide)

/-- C5: on success the aggregator's dict is nested to exactly the depth of
`param_list`; descending by a batch's parameter values (the key at level `i`
being the batch's value of the `i`-th parameter) reaches an innermost dict
that has an entry for every requested statistic; and batches agreeing on a
prefix of parameter values reach one and the same nested sub-dict along that
prefix. -/
theorem aggregate_nesting_structure
    (models : List (String × FlockModel)) (pl names : List String) (sFn : SFn)
    (skip : ℕ) (d : PDict) (b : String)
    (hd : aggregate_model_stats models pl names sFn skip = .ok d)
    (hb : b ∈ batchNames models) :
    PDict.okDepthB pl.length d = true ∧
    (∃ leaf, d.lookupPath (pathOf models pl b) = some leaf ∧
      ∀ s ∈ names, (alook s leaf).isSome) ∧
    (∀ k : ℕ, (d.lookupNode ((pathOf models pl b).take k)).isSome ∧
      ∀ b2 ∈ batchNames models,
        (pathOf models pl b2).take k = (pathOf models pl b).take k →
        d.lookupNode ((pathOf models pl b2).take k) =
          d.lookupNode ((pathOf models pl b).take k)) := by
  obtain rfl := agg_ok_elim hd
  have hkeys2 : ∀ b2 ∈ batchNames models, b2 ∈ models.map Prod.fst :=
    fun b2 h2 => mem_of_mem_batchNames h2
  have hpres := foldl_PB_present models sFn pl names skip (batchNames models)
    (emptyFor pl) b (okDepthB_emptyFor pl) hb hkeys2
  refine ⟨okDepthB_foldl_PB models sFn pl names skip _ _ (okDepthB_emptyFor pl),
    hpres, ?_⟩
  intro k
  obtain ⟨leaf, hl, hp⟩ := hpres
  exact ⟨lookupNode_take_isSome _ _ leaf hl k, fun b2 _ heq => by rw [heq]⟩

theorem aggregate_nesting_structure_witness :
    PDict.okDepthB (["r"] : List String).length (PDict.nd [(1, PDict.lf [("s", 4)])]) =
      true ∧
    (∃ leaf, (PDict.nd [(1, PDict.lf [("s", 4)])]).lookupPath
        (pathOf cexModels (["r"]) ("b")) = some leaf ∧
      ∀ s ∈ (["s"] : List String), (alook s leaf).isSome) ∧
    (∀ k : ℕ, ((PDict.nd [(1, PDict.lf [("s", 4)])]).lookupNode
        ((pathOf cexModels (["r"]) ("b")).take k)).isSome ∧
      ∀ b2 ∈ batchNames cexModels,
        (pathOf cexModels (["r"]) b2).take k =
          (pathOf cexModels (["r"]) ("b")).take k →
        (PDict.nd [(1, PDict.lf [("s", 4)])]).lookupNode
            ((pathOf cexModels (["r"]) b2).take k) =
          (PDict.nd [(1, PDict.lf [("s", 4)])]).lookupNode
            ((pathOf cexModels (["r"]) ("b")).take k)) :=
  aggregate_nesting_structure cexModels (["r"]) (["s"]) cexSFn 10 _ ("b")
    cex_agg_eval (by decide)

/-! ## C6: the four statistics and the dropped timepoints -/

theorem alook_map_snd {α β : Type} (h : α → β) (key : String) :
    ∀ l : List (String × α),
      alook key (l.map (fun p => (p.1, h p.2))) = (alook key l).map h := by
  intro l
  induction l with
  | nil => rfl
  | cons kv rest ih =>
    obtain ⟨k, v⟩ := kv
    by_cases hk : k = key <;> simp [alook, hk, ih]

theorem map_fst_dropTraj (k : ℕ) (models : List (String × FlockModel)) :
    (models.map (fun p => (p.1, dropTraj k p.2))).map Prod.fst =
      models.map Prod.fst := by
  rw [List.map_map]
  rfl

theorem getModel_dropTraj (k : ℕ) (models : List (String × FlockModel)) (e : String) :
    getModel (models.map (fun p => (p.1, dropTraj k p.2))) e =
      dropTraj k (getModel models e) := by
  unfold getModel
  rw [alook_map_snd]
  cases alook e models with
  | none => simp [dropTraj]
  | some m => rfl

theorem batchNames_dropTraj (k : ℕ) (models : List (String × FlockModel)) :
    batchNames (models.map (fun p => (p.1, dropTraj k p.2))) = batchNames models := by
  unfold batchNames
  rw [map_fst_dropTraj]

theorem expIn_dropTraj (k : ℕ) (models : List (String × FlockModel)) (b : String) :
    expIn (models.map (fun p => (p.1, dropTraj k p.2))) b = expIn models b := by
  unfold expIn
  rw [map_fst_dropTraj]

theorem countOf_dropTraj (k : ℕ) (models : List (String × FlockModel)) (b : String) :
    countOf (models.map (fun p => (p.1, dropTraj k p.2))) b = countOf models b := by
  unfold countOf
  rw [expIn_dropTraj]

theorem pathOf_dropTraj (k : ℕ) (models : List (String × FlockModel))
    (pl : List String) (b : String) :
    pathOf (models.map (fun p => (p.1, dropTraj k p.2))) pl b = pathOf models pl b := by
  unfold pathOf
  rw [getModel_dropTraj]
  rfl

theorem statVal_dropTraj (k : ℕ) (sFn : SFn) (m : FlockModel) :
    statVal sFn 0 (dropTraj k m) = statVal sFn k m := by
  funext stat
  unfold statVal dropTraj
  rw [List.drop_zero, List.drop_zero]

theorem batchLeafUpd_dropTraj (k : ℕ) (models : List (String × FlockModel))
    (sFn : SFn) (names : List String) (b : String) :
    batchLeafUpd (models.map (fun p => (p.1, dropTraj k p.2))) sFn names 0 b =
      batchLeafUpd models sFn names k b := by
  funext l
  unfold batchLeafUpd
  rw [countOf_dropTraj, expIn_dropTraj]
  have hfun : (fun (acc : Leaf) e =>
      addExp names (statVal sFn 0
        (getModel (models.map (fun p => (p.1, dropTraj k p.2))) e)) acc) =
      (fun (acc : Leaf) e => addExp names (statVal sFn k (getModel models e)) acc) := by
    funext acc e
    rw [getModel_dropTraj, statVal_dropTraj]
  rw [hfun]

theorem processBatch_dropTraj (k : ℕ) (models : List (String × FlockModel))
    (sFn : SFn) (pl names : List String) :
    processBatch (models.map (fun p => (p.1, dropTraj k p.2))) sFn pl names 0 =
      processBatch models sFn pl names k := by
  funext d b
  unfold processBatch
  rw [batchLeafUpd_dropTraj, pathOf_dropTraj]

theorem params_flatten_dropTraj (k : ℕ) (models : List (String × FlockModel)) :
    ((models.map (fun p => (p.1, dropTraj k p.2))).map
      (fun q => q.2.params.map Prod.fst)) =
      models.map (fun q => q.2.params.map Prod.fst) := by
  rw [List.map_map]
  rfl

/-- The aggregator depends on each trajectory only through its entries after
the first `skip` timepoints: aggregating with `skip = k` equals aggregating
the models with their first `k` timepoints dropped and `skip = 0`. -/
theorem aggregate_skip_shift (models : List (String × FlockModel))
    (pl names : List String) (sFn : SFn) (k : ℕ) :
    aggregate_model_stats models pl names sFn k =
      aggregate_model_stats (models.map (fun p => (p.1, dropTraj k p.2))) pl
        names sFn 0 := by
  unfold aggregate_model_stats
  rw [params_flatten_dropTraj, batchNames_dropTraj, processBatch_dropTraj]

/-- C6: the aggregation requested by `plot_results` computes exactly the
four statistics `avg_abs_vel`, `std_angle`, `std_dist_cmass`, `psi_cmass`
(the keys of `titles`): every batch's innermost dict carries exactly those
four keys, in that order; and it depends on each experiment's trajectory
only through the timepoints after the first `10` (the default `skip` used at
the call site). -/
theorem aggregator_four_stats_skip10
    (models : List (String × FlockModel)) (pl : List String) (sFn : SFn) (d : PDict)
    (hd : aggregate_model_stats models pl titlesKeys sFn 10 = .ok d) :
    titlesKeys = ["avg_abs_vel", "std_angle", "std_dist_cmass", "psi_cmass"] ∧
    (∀ b ∈ batchNames models, ∃ leaf,
      d.lookupPath (pathOf models pl b) = some leaf ∧
      leaf.map Prod.fst = ["avg_abs_vel", "std_angle", "std_dist_cmass", "psi_cmass"]) ∧
    aggregate_model_stats models pl titlesKeys sFn 10 =
      aggregate_model_stats (models.map (fun p => (p.1, dropTraj 10 p.2))) pl
        titlesKeys sFn 0 := by
  refine ⟨rfl, ?_, aggregate_skip_shift models pl titlesKeys sFn 10⟩
  intro b hb
  obtain rfl := agg_ok_elim hd
  have hkeys2 : ∀ b2 ∈ batchNames models, b2 ∈ models.map Prod.fst :=
    fun b2 h2 => mem_of_mem_batchNames h2
  obtain ⟨leaf, hl, hp⟩ := foldl_PB_present models sFn pl titlesKeys 10
    (batchNames models) (emptyFor pl) b (okDepthB_emptyFor pl) hb hkeys2
  refine ⟨leaf, hl, ?_⟩
  have hinv0 : ∀ (q : List ℚ) (leaf : Leaf), (emptyFor pl).lookupPath q = some leaf →
      leaf = [] ∨ leaf.map Prod.fst = titlesKeys := by
    intro q leaf2 h
    rw [lookupPath_emptyFor] at h
    split at h
    · left
      exact (Option.some.inj h).symm
    · cases h
  have hkinv := foldl_PB_keysinv models sFn pl titlesKeys 10 (by decide)
    (batchNames models) (emptyFor pl) (okDepthB_emptyFor pl) hkeys2 hinv0
    (pathOf models pl b) leaf hl
  rcases hkinv with h0 | h0
  · exfalso
    have := hp ("avg_abs_vel") (by decide)
    rw [h0] at this
    cases this
  · exact h0

/-- Evaluation of the aggregator on a single-experiment batch with the four
requested statistics of `plot_results`. -/
theorem w_agg4_eval :
    aggregate_model_stats wModel1 (["r"]) titlesKeys cexSFn 10 =
      .ok (PDict.nd [(1, PDict.lf [("avg_abs_vel", 6), ("std_angle", 6),
        ("std_dist_cmass", 6), ("psi_cmass", 6)])]) := by
  have h1 : ∀ s : String, statVal cexSFn 10 (getModel wModel1 ("b")) s = 6 := by
    intro s
    norm_num [statVal, pyMean, cexSFn]
  have hc : ((countOf wModel1 ("b") : ℤ) : ℚ) = 1 := by decide
  calc aggregate_model_stats wModel1 (["r"]) titlesKeys cexSFn 10
      = .ok (PDict.nd [(1, PDict.lf [
          ("avg_abs_vel", statVal cexSFn 10 (getModel wModel1 ("b")) ("avg_abs_vel") /
            ((countOf wModel1 ("b") : ℤ) : ℚ)),
          ("std_angle", statVal cexSFn 10 (getModel wModel1 ("b")) ("std_angle") /
            ((countOf wModel1 ("b") : ℤ) : ℚ)),
          ("std_dist_cmass", statVal cexSFn 10 (getModel wModel1 ("b")) ("std_dist_cmass") /
            ((countOf wModel1 ("b") : ℤ) : ℚ)),
          ("psi_cmass", statVal cexSFn 10 (getModel wModel1 ("b")) ("psi_cmass") /
            ((countOf wModel1 ("b") : ℤ) : ℚ))])]) := rfl
    _ = .ok (PDict.nd [(1, PDict.lf [("avg_abs_vel", 6), ("std_angle", 6),
        ("std_dist_cmass", 6), ("psi_cmass", 6)])]) := by
      simp only [h1, hc]
      norm_num

theorem aggregator_four_stats_skip10_witness :
    titlesKeys = ["avg_abs_vel", "std_angle", "std_dist_cmass", "psi_cmass"] ∧
    (∀ b ∈ batchNames wModel1, ∃ leaf,
      (PDict.nd [(1, PDict.lf [("avg_abs_vel", 6), ("std_angle", 6),
        ("std_dist_cmass", 6), ("psi_cmass", 6)])]).lookupPath
          (pathOf wModel1 (["r"]) b) = some leaf ∧
      leaf.map Prod.fst = ["avg_abs_vel", "std_angle", "std_dist_cmass", "psi_cmass"]) ∧
    aggregate_model_stats wModel1 (["r"]) titlesKeys cexSFn 10 =
      aggregate_model_stats (wModel1.map (fun p => (p.1, dropTraj 10 p.2))) (["r"])
        titlesKeys cexSFn 0 :=
  aggregator_four_stats_skip10 wModel1 (["r"]) cexSFn _ w_agg4_eval

/-! ## C4: the curves of `plot_3param` -/

theorem filter_flatMap {α β : Type} (p : β → Bool) (f : α → List β) :
    ∀ l : List α, (l.flatMap f).filter p = l.flatMap (fun x => (f x).filter p) := by
  intro l
  induction l with
  | nil => rfl
  | cons x xs ih =>
    rw [List.flatMap_cons, List.flatMap_cons, List.filter_append, ih]

theorem flatMap_congr {α β : Type} (f g : α → List β) :
    ∀ l : List α, (∀ x ∈ l, f x = g x) → l.flatMap f = l.flatMap g := by
  intro l
  induction l with
  | nil => intro _; rfl
  | cons x xs ih =>
    intro h
    rw [List.flatMap_cons, List.flatMap_cons, h x (List.mem_cons_self _ _),
      ih (fun y hy => h y (List.mem_cons_of_mem _ hy))]

theorem filterMap_eq_map_of {α β : Type} (f : α → Option β) (g : α → β) :
    ∀ l : List α, (∀ x ∈ l, f x = some (g x)) → l.filterMap f = l.map g := by
  intro l
  induction l with
  | nil => intro _; rfl
  | cons x xs ih =>
    intro h
    rw [List.filterMap_cons, h x (List.mem_cons_self _ _),
      ih (fun y hy => h y (List.mem_cons_of_mem _ hy)), List.map_cons]

theorem flatMap_map_singleton {α β : Type} (f : α → β) :
    ∀ l : List α, (l.flatMap (fun x => [f x])) = l.map f := by
  intro l
  induction l with
  | nil => rfl
  | cons x xs ih => rw [List.flatMap_cons, List.map_cons, ih]; rfl

/-- C4 counterexample: on an aggregation dict where the third-parameter
value `2` is missing under the second-parameter value `2`, `plot_3param`
draws a dashed curve whose y-list keeps only the combinations present
(`yval` is filtered but `xval` is not), so the curve is not the statistic's
mean as a function of the second-parameter values — the lists are not even
the same length. -/
theorem plot_3param_misaligned_cex :
    (Ev.curve [1, 2] [7] (some ("c = 2")) ("--")) ∈
      (plot_3param ("M") cexStats3 (["a", "b", "c"]) ("out")).1 ∧
    ([7] : List ℚ) ≠
      ([1, 2] : List ℚ).map (fun p1 =>
        (((cexStats3.child 1).child p1).child 2).leafVal ("avg_abs_vel")) := by
  constructor
  · decide
  · decide

/-- C4 (amended): when every third-parameter value occurring under a
first-parameter value occurs under each of its second-parameter values (a
complete grid), `plot_3param` completes without raising and, for every
statistic and every first-parameter value, draws exactly one dashed labelled
curve per distinct third-parameter value, each giving the statistic's
aggregated value as a function of the second-parameter values, and saves
exactly one figure per (statistic, first-parameter value) pair.  On an
incomplete grid the y-list pairs positionally with a shorter filtered list
(see the counterexample). -/
theorem plot_3param_complete_grid (name : String) (stats : PDict)
    (param : List String) (path : String) (hlen : param.length = 3)
    (hcomp : ∀ p0 ∈ stats.keys, ∀ p1 ∈ (stats.child p0).keys,
      ∀ p2 ∈ groupsOf stats p0, ((stats.child p0).child p1).hasKey p2 = true) :
    (plot_3param name stats param path).2 = none ∧
    (plot_3param name stats param path).1.filter isCurveEv =
      titlesKeys.flatMap (fun val => stats.keys.flatMap (fun p0 =>
        (groupsOf stats p0).map (fun p2 =>
          Ev.curve ((stats.child p0).keys)
            (((stats.child p0).keys).map (fun p1 =>
              (((stats.child p0).child p1).child p2).leafVal val))
            (some (param.getD 2 ("") ++ " = " ++ pyStr p2)) ("--")))) ∧
    (plot_3param name stats param path).1.filter isSaveEv =
      titlesKeys.flatMap (fun val => stats.keys.map (fun p0 =>
        Ev.savefig (path ++ "/" ++ name ++ "_" ++ param.getD 0 ("") ++ pyStr p0 ++
          "_" ++ param.getD 1 ("") ++ "_" ++ param.getD 2 ("") ++ "_vs_" ++ val ++
          ".png"))) := by
  have hne : ¬ (param.length ≠ 3) := by simp [hlen]
  have htrace : (plot_3param name stats param path).1 =
      titlesKeys.flatMap (fun val => stats.keys.flatMap
        (fun p0 => p3block name stats param path val p0)) := by
    simp [plot_3param, hne]
  refine ⟨by simp [plot_3param, hne], ?_, ?_⟩
  · rw [htrace, filter_flatMap]
    apply flatMap_congr
    intro val _
    rw [filter_flatMap]
    apply flatMap_congr
    intro p0 hp0
    unfold p3block
    rw [List.filter_append]
    have htail : List.filter isCurveEv
        [Ev.title ((alook val titlesL).getD ("") ++ " vs $\\" ++ param.getD 1 ("") ++ "$"),
         Ev.suptitle (name ++ " $\\" ++ param.getD 0 ("") ++ "$ = " ++ pyStr p0),
         Ev.xlabel ("$\\eta$"),
         Ev.ylabel ((alook val labelsL).getD ("")),
         Ev.legend,
         Ev.savefig (path ++ "/" ++ name ++ "_" ++ param.getD 0 ("") ++ pyStr p0 ++
           "_" ++ param.getD 1 ("") ++ "_" ++ param.getD 2 ("") ++ "_vs_" ++ val ++
           ".png"),
         Ev.cla] = [] := rfl
    rw [htail, List.append_nil]
    rw [List.filter_eq_self.2 (by
      intro e he
      obtain ⟨p2, hp2, rfl⟩ := List.mem_map.1 he
      rfl)]
    apply List.map_congr_left
    intro p2 hp2
    congr 1
    exact filterMap_eq_map_of _ _ _
      (fun p1 hp1 => by rw [if_pos (hcomp p0 hp0 p1 hp1 p2 hp2)])
  · rw [htrace, filter_flatMap]
    apply flatMap_congr
    intro val _
    rw [filter_flatMap]
    have hpoint : ∀ p0 ∈ stats.keys,
        (p3block name stats param path val p0).filter isSaveEv =
        [Ev.savefig (path ++ "/" ++ name ++ "_" ++ param.getD 0 ("") ++ pyStr p0 ++
          "_" ++ param.getD 1 ("") ++ "_" ++ param.getD 2 ("") ++ "_vs_" ++ val ++
          ".png")] := by
      intro p0 _
      unfold p3block
      rw [List.filter_append]
      have hcurves : List.filter isSaveEv ((groupsOf stats p0).map (fun p2 =>
          Ev.curve ((stats.child p0).keys)
            (((stats.child p0).keys).filterMap (fun p1 =>
              if ((stats.child p0).child p1).hasKey p2 then
                some ((((stats.child p0).child p1).child p2).leafVal val)
              else none))
            (some (param.getD 2 ("") ++ " = " ++ pyStr p2)) ("--"))) = [] := by
        rw [List.filter_eq_nil_iff]
        intro e he
        obtain ⟨p2, hp2, rfl⟩ := List.mem_map.1 he
        simp [isSaveEv]
      rw [hcurves, List.nil_append]
      rfl
    rw [flatMap_congr _ _ _ hpoint]
    exact flatMap_map_singleton _ _

theorem plot_3param_complete_grid_witness :
    (plot_3param ("M") cexStats3c (["a", "b", "c"]) ("out")).2 = none :=
  (plot_3param_complete_grid ("M") cexStats3c (["a", "b", "c"]) ("out") (by decide)
    (by decide)).1
